import Mathlib

/-!
Route and interface ingestion of the DPDK router (`router.c`).

A shallow embedding of the control-plane part of `router.c`: the two global
singly linked lists (`intf_defs`, `routing_table`), the functions that grow them
(`add_intf_config`, `install_route`), the textual parsers
(`parse_intf_dev`, `parse_install_route`, `parse_mac`) and the command line
driver `parse_args`.

Conventions of the embedding.

* A linked list reachable from a global head pointer is a `List` of its nodes,
  head first.  A node that is no longer reachable from the head is no longer in
  the list.
* `uint8_t`/`uint32_t` values are natural numbers; where the C code can wrap,
  the reduction modulo `2 ^ 8` / `2 ^ 32` is written out.
* A C string is a `List Char` read up to its first NUL character, or up to the
  end of the list when it holds none (the terminator then sits just past the
  end).  A `char *` into a buffer is an index into the list.
* The outcome of every `malloc` call is supplied by an oracle `Nat → Bool`
  indexed by the number of earlier calls, which the state counts.
-/

namespace Router

/-! ## Error codes -/

/-- `#define ERR_GEN -1`. -/
def ERR_GEN : Int := -1
/-- `#define ERR_FORMAT -2`. -/
def ERR_FORMAT : Int := -2
/-- `#define ERR_MEM -3`. -/
def ERR_MEM : Int := -3
/-- `#define ERR_ARG_NULL -4` (never used by the code). -/
def ERR_ARG_NULL : Int := -4
/-- `#define MAC_LEN 6`. -/
def MAC_LEN : Nat := 6

/-! ## Data model -/

/-- `struct ether_addr`: the array `addr_bytes[6]` of octets. -/
structure ether_addr where
  addr_bytes : List Nat
  deriving DecidableEq, Repr

/-- `struct routing_table_entry` (declared in `routing_table.h`); `router.c`
uses its two members `dst_port` and `dst_mac`. -/
structure routing_table_entry where
  dst_port : Nat
  dst_mac : ether_addr
  deriving DecidableEq, Repr

/-- `routing_table_line_t` without its `nxt` link. -/
structure routing_table_line where
  dst_net : Nat
  netmask : Nat
  rte : routing_table_entry
  deriving DecidableEq, Repr

/-- `intf_config_t` without its `nxt` link. -/
structure intf_config where
  intf : Nat
  ip_addr : Nat
  deriving DecidableEq, Repr

/-- The mutable globals of `router.c`, together with the number of `malloc`
calls made so far. -/
structure State where
  intf_defs : List intf_config
  routing_table : List routing_table_line
  mallocs : Nat
  deriving DecidableEq, Repr

/-- Both lists are `NULL` at program start. -/
def State.init : State := ⟨[], [], 0⟩

/-- Conversion `(uint8_t) x` of a `long`. -/
def to_u8 (x : Int) : Int := x % 256

/-! ## `install_route` -/

/-- The value `(1 << (32 - prf)) - 1` leaves in the `uint32_t netmask`, for the
`uint8_t prf` the code passes.  For `prf` in `[1, 32]` it is
`2 ^ (32 - prf) - 1` (for `prf = 1` through the wrap-around of the 32-bit
`int`).  For `prf = 0` and for `prf > 32` the shift count is 32 or negative and
C gives the expression no defined value; the shift instruction of the machines
the router runs on takes the count modulo 32, and so does the model: prefix
length 0 stores the netmask `0` and prefix length 33 stores `0x7fffffff`. -/
def route_netmask (prf : Nat) : Nat :=
  ((1 <<< ((32 - (prf : Int)) % 32).toNat) % 2 ^ 32 + 2 ^ 32 - 1) % 2 ^ 32

/-- The loop `while(*iterator != NULL && (*iterator)->netmask > netmask)
*iterator = (*iterator)->nxt;` of `install_route`.  `iterator` stays
`&routing_table` throughout, so every round overwrites the head pointer with
the successor of the head; the result is the list the head pointer designates
when the loop ends. -/
def install_route_scan (netmask : Nat) : List routing_table_line → List routing_table_line
  | [] => []
  | line :: nxt =>
    if line.netmask > netmask then install_route_scan netmask nxt else line :: nxt

/-- `install_route(dst_net, prf, intf, mac)`: returns the `int` result and the
new state.  The scan runs before the allocation, so its effect on the table is
kept when `malloc` fails. -/
def install_route (malloc : Nat → Bool) (dst_net prf intf : Nat) (mac : ether_addr)
    (s : State) : Int × State :=
  let netmask := route_netmask prf
  let dst_net := dst_net &&& netmask
  let rest := install_route_scan netmask s.routing_table
  if malloc s.mallocs then
    let new_line : routing_table_line :=
      { dst_net := dst_net, netmask := netmask, rte := { dst_port := intf, dst_mac := mac } }
    (0, { s with routing_table := new_line :: rest, mallocs := s.mallocs + 1 })
  else
    (ERR_MEM, { s with routing_table := rest, mallocs := s.mallocs + 1 })

/-- The arguments of one `install_route` call. -/
structure route_args where
  dst_net : Nat
  prf : Nat
  intf : Nat
  mac : ether_addr
  deriving DecidableEq, Repr

/-- A sequence of `install_route` calls, each on the state the previous one
left. -/
def install_routes (malloc : Nat → Bool) : List route_args → State → State
  | [], s => s
  | r :: rest, s =>
    install_routes malloc rest (install_route malloc r.dst_net r.prf r.intf r.mac s).2

/-- Binary logarithm (rounded down) of a number in `[1, 2 ^ 32]`: how many of
the powers `2 ^ 1, .., 2 ^ 32` do not exceed it. -/
def log2_u32 (n : Nat) : Nat :=
  ((List.range 32).filter (fun k => decide (2 ^ (k + 1) ≤ n))).length

/-- Prefix length of a stored line, recovered from its `netmask` field:
`32 - log2(netmask + 1)`.  A line does not store the `prf` it was installed
with. -/
def prefix_length (line : routing_table_line) : Nat :=
  32 - log2_u32 (line.netmask + 1)

/-- The routing table the description asks `install_route` to produce: the new
line goes behind every line whose prefix length is at least `p` and in front of
the first line with a shorter prefix. -/
def spec_insert (p : Nat) (new_line : routing_table_line)
    (table : List routing_table_line) : List routing_table_line :=
  table.takeWhile (fun l => decide (prefix_length l ≥ p)) ++ [new_line] ++
    table.dropWhile (fun l => decide (prefix_length l ≥ p))

/-! ## `add_intf_config` -/

/-- The walk `while(*iterator != NULL) iterator = &((*iterator)->nxt);` followed
by the store of the new node through `iterator`: the new node is linked behind
the last one. -/
def add_intf_config_link (new_cfg : intf_config) : List intf_config → List intf_config
  | [] => [new_cfg]
  | cfg :: nxt => cfg :: add_intf_config_link new_cfg nxt

/-- `add_intf_config(intf, ip_addr)`.  When `malloc` fails the `NULL` it returns
is stored into the link that was `NULL` already, so the list is unchanged. -/
def add_intf_config (malloc : Nat → Bool) (intf ip_addr : Nat) (s : State) : Int × State :=
  if malloc s.mallocs then
    (0, { s with intf_defs := add_intf_config_link ⟨intf, ip_addr⟩ s.intf_defs,
                 mallocs := s.mallocs + 1 })
  else
    (ERR_MEM, { s with mallocs := s.mallocs + 1 })

/-! ## C strings and the libc functions the parsers call

The library functions are not part of `router.c`; they are modelled after the
C standard and POSIX, with the behaviour of glibc where the standards leave a
choice. -/

/-- The terminating character of a C string. -/
def NUL : Char := Char.ofNat 0

/-- The character `buf[i]`; the terminator sits just past the end of the list. -/
def c_at (buf : List Char) (i : Nat) : Char := buf.getD i NUL

/-- Offset of the first `c` in the C string `s`; the search ends at the first
NUL. -/
def find_char (c : Char) : List Char → Option Nat
  | [] => none
  | x :: xs =>
    if x = NUL then none
    else if x = c then some 0
    else (find_char c xs).map (· + 1)

/-- `strstr(buf + start, needle)` for a needle of the single character `c`, as
an index into `buf` (`none` for `NULL`). -/
def strstr (buf : List Char) (start : Nat) (c : Char) : Option Nat :=
  (find_char c (buf.drop start)).map (· + start)

/-- `isspace` in the C locale. -/
def isspace (c : Char) : Bool :=
  c = ' ' || c = '\t' || c = '\n' || c = Char.ofNat 11 || c = Char.ofNat 12 || c = '\r'

/-- Value of a decimal digit character. -/
def digit_val (c : Char) : Nat := c.toNat - 48

/-- The longest run of decimal digits at the start of `s`, accumulated onto
`acc`: the value and the number of characters read. -/
def scan_digits : List Char → Nat → Nat × Nat
  | [], acc => (acc, 0)
  | c :: cs, acc =>
    if c.isDigit then
      let r := scan_digits cs (acc * 10 + digit_val c)
      (r.1, r.2 + 1)
    else (acc, 0)

/-- `LONG_MAX` of a 64-bit `long`. -/
def LONG_MAX : Int := 2 ^ 63 - 1
/-- `LONG_MIN` of a 64-bit `long`. -/
def LONG_MIN : Int := -(2 ^ 63)

/-- `strtol(s, &end, 10)`: the value and the offset `end - s`.  White space is
skipped, one sign is accepted, then the longest run of digits is converted; a
value out of range is clamped; without any digit nothing is consumed and the
value is `0`. -/
def strtol (s : List Char) : Int × Nat :=
  let ws := (s.takeWhile isspace).length
  let s1 := s.drop ws
  let sign : Bool × Nat :=
    match s1 with
    | c :: _ => if c = '-' then (true, 1) else if c = '+' then (false, 1) else (false, 0)
    | [] => (false, 0)
  let r := scan_digits (s1.drop sign.2) 0
  if r.2 = 0 then (0, 0)
  else
    let v : Int := if sign.1 then -(r.1 : Int) else (r.1 : Int)
    (max LONG_MIN (min LONG_MAX v), ws + sign.2 + r.2)

/-- The `uint32_t` whose object representation is the four bytes `b`, in memory
order, on a big-endian (`be = true`) or little-endian host. -/
def load_u32 (be : Bool) (b : List Nat) : Nat :=
  if be then b.foldl (fun acc x => acc * 256 + x) 0
  else b.foldr (fun x acc => acc * 256 + x) 0

/-- The scan of `inet_pton(AF_INET, ..)` (glibc `inet_pton4`): `tmp` holds the
octets finished so far, `cur` the octet being read, `octets` the number of
octets started and `saw_digit` whether the current octet has a digit.  An octet
is one to three digits, at most 255, without a leading zero; exactly four
octets separated by single dots must fill the whole string. -/
def inet_pton4 : List Char → List Nat → Nat → Nat → Bool → Option (List Nat)
  | [], tmp, cur, octets, _ => if octets < 4 then none else some (tmp ++ [cur])
  | ch :: src, tmp, cur, octets, saw_digit =>
    if ch = NUL then (if octets < 4 then none else some (tmp ++ [cur]))
    else if ch.isDigit then
      let new := cur * 10 + digit_val ch
      if saw_digit && cur == 0 then none
      else if new > 255 then none
      else if !saw_digit && octets + 1 > 4 then none
      else inet_pton4 src tmp new (if saw_digit then octets else octets + 1) true
    else if ch = '.' && saw_digit then
      if octets == 4 then none
      else inet_pton4 src (tmp ++ [cur]) 0 octets false
    else none

/-- `inet_pton(AF_INET, s, &ip_addr)`: `some v` when it returns 1, `v` being
the `uint32_t` it leaves in `ip_addr` (the four octets in network order, read
by the host), and `none` when it returns 0. -/
def inet_pton (be : Bool) (s : List Char) : Option Nat :=
  (inet_pton4 s [] 0 0 false).map (load_u32 be)

/-- Value of a hexadecimal digit character, `none` for any other character. -/
def hex_val (c : Char) : Option Nat :=
  if c.isDigit then some (c.toNat - 48)
  else if 'a'.toNat ≤ c.toNat ∧ c.toNat ≤ 'f'.toNat then some (c.toNat - 87)
  else if 'A'.toNat ≤ c.toNat ∧ c.toNat ≤ 'F'.toNat then some (c.toNat - 55)
  else none

/-- The longest run of hexadecimal digits at the start of `s`, accumulated onto
`acc`: the value and the number of characters read. -/
def scan_hex : List Char → Nat → Nat × Nat
  | [], acc => (acc, 0)
  | c :: cs, acc =>
    match hex_val c with
    | some d =>
      let r := scan_hex cs (acc * 16 + d)
      (r.1, r.2 + 1)
    | none => (acc, 0)

/-- One `%x` directive of `sscanf` without a field width: the `unsigned int`
stored and the number of characters consumed, `none` when no number can be
read.  White space is skipped, one sign and one `0x`/`0X` are accepted, then
the longest run of hexadecimal digits is converted as by `strtoul` (clamped to
`ULONG_MAX = 2 ^ 64 - 1`, negated modulo `2 ^ 64` after a minus sign) and
stored modulo `2 ^ 32`.  As in glibc, a `0x` that no digit follows reads as
`0`. -/
def scanf_x (s : List Char) : Option (Nat × Nat) :=
  let ws := (s.takeWhile isspace).length
  let s1 := s.drop ws
  let sign : Bool × Nat :=
    match s1 with
    | c :: _ => if c = '-' then (true, 1) else if c = '+' then (false, 1) else (false, 0)
    | [] => (false, 0)
  let s2 := s1.drop sign.2
  let pre : Nat :=
    match s2 with
    | c0 :: c1 :: _ => if c0 = '0' ∧ (c1 = 'x' ∨ c1 = 'X') then 2 else 0
    | _ => 0
  let r := scan_hex (s2.drop pre) 0
  if pre = 0 ∧ r.2 = 0 then none
  else
    let v := if r.1 ≥ 2 ^ 64 then 2 ^ 64 - 1
             else if sign.1 then (2 ^ 64 - r.1) % 2 ^ 64 else r.1
    some (v % 2 ^ 32, ws + sign.2 + pre + r.2)

/-- The directives `%x:%x: .. :%x` (`k` conversions) applied to `s`: the values
stored, in order, up to the first failure. -/
def sscanf_hex_groups : Nat → List Char → List Nat
  | 0, _ => []
  | k + 1, s =>
    match scanf_x s with
    | none => []
    | some (v, n) =>
      if k = 0 then [v]
      else
        match s.drop n with
        | c :: rest => if c = ':' then v :: sscanf_hex_groups k rest else [v]
        | [] => [v]

/-- `sscanf(s, "%x:%x:%x:%x:%x:%x", buf, .., buf + 5)`: the return value and the
elements of `buf` that were assigned.  The return value is the number of
assignments, or `EOF = -1` when the input ends before the first conversion. -/
def sscanf_mac (s : List Char) : Int × List Nat :=
  let buf := sscanf_hex_groups MAC_LEN s
  let s1 := s.dropWhile isspace
  if buf = [] ∧ c_at s1 0 = NUL then (-1, buf) else ((buf.length : Int), buf)

/-! ## The parsers of `router.c` -/

/-- `parse_mac(s_mac, mac)`: the return value and the content of `*mac`
afterwards.  Each `int` read is narrowed by `(uint8_t)`. -/
def parse_mac (s_mac : List Char) (mac : ether_addr) : Int × ether_addr :=
  let r := sscanf_mac s_mac
  if (MAC_LEN : Int) = r.1 then (0, ⟨r.2.map (· % 256)⟩)
  else (-1, mac)

/-- `parse_intf_dev(def)`.  The `,` is overwritten by NUL in place, the
identifier is read from the start of the buffer and the address behind the
former `,`. -/
def parse_intf_dev (malloc : Nat → Bool) (be : Bool) (defn : List Char) (s : State) :
    Int × State :=
  match strstr defn 0 ',' with
  | none => (ERR_FORMAT, s)
  | some comma =>
    let buf := defn.set comma NUL
    let ip_start := comma + 1
    let r := strtol buf
    let ltmp := r.1
    let tmp := r.2
    if c_at buf tmp ≠ NUL then (ERR_FORMAT, s)
    else if to_u8 ltmp ≠ ltmp then (ERR_FORMAT, s)
    else
      let intf := (to_u8 ltmp).toNat
      match inet_pton be (buf.drop ip_start) with
      | none => (ERR_FORMAT, s)
      | some ip_addr => add_intf_config malloc intf ip_addr s

/-- `parse_install_route(route)`.  Each separator found is overwritten by NUL in
place.  The third search starts at `cidr_start` again, as in the source.  The
local `mac_addr` is uninitialised before `parse_mac` fills it; the result of
`install_route` is discarded. -/
def parse_install_route (malloc : Nat → Bool) (be : Bool) (route : List Char) (s : State) :
    Int × State :=
  match strstr route 0 '/' with
  | none => (ERR_FORMAT, s)
  | some slash =>
    let buf1 := route.set slash NUL
    let cidr_start := slash + 1
    match strstr buf1 cidr_start ',' with
    | none => (ERR_FORMAT, s)
    | some comma1 =>
      let buf2 := buf1.set comma1 NUL
      let mac_start := comma1 + 1
      match strstr buf2 cidr_start ',' with
      | none => (ERR_FORMAT, s)
      | some comma2 =>
        let buf3 := buf2.set comma2 NUL
        let intf_start := comma2 + 1
        match inet_pton be buf3 with
        | none => (ERR_FORMAT, s)
        | some ip_addr =>
          let r := strtol (buf3.drop cidr_start)
          if cidr_start + r.2 ≠ mac_start - 1 then (ERR_FORMAT, s)
          else if to_u8 r.1 ≠ r.1 then (ERR_FORMAT, s)
          else
            let cidr := (to_u8 r.1).toNat
            let m := parse_mac (buf3.drop mac_start) ⟨[]⟩
            if m.1 < 0 then (ERR_FORMAT, s)
            else
              let r2 := strtol (buf3.drop intf_start)
              if c_at buf3 (intf_start + r2.2) ≠ NUL then (ERR_FORMAT, s)
              else if to_u8 r2.1 ≠ r2.1 then (ERR_FORMAT, s)
              else
                let intf_id := (to_u8 r2.1).toNat
                (0, (install_route malloc ip_addr cidr intf_id m.2 s).2)

/-! ## `parse_args` -/

/-- The `for` loop of `parse_args` over the tokens `argv[ctr], argv[ctr+1], ..`
up to `argv[argc - 1]`.  The result is `none` when a `-r` or `-p` flag is the
last token: the code then hands `argv[argc]`, the `NULL` pointer, to `strstr`,
which has no defined behaviour. -/
def parse_args_loop (malloc : Nat → Bool) (be : Bool) :
    List (List Char) → State → Option Int × State
  | [], s => (some 0, s)
  | [tok], s =>
    if c_at tok 0 ≠ '-' then (some 0, s)
    else if c_at tok 1 = 'r' then (none, s)
    else if c_at tok 1 = 'p' then (none, s)
    else if c_at tok 1 = 'h' then (some 0, s)
    else (some ERR_GEN, s)
  | tok :: arg :: rest, s =>
    if c_at tok 0 ≠ '-' then (some 0, s)
    else if c_at tok 1 = 'r' then
      let r := parse_install_route malloc be arg s
      if r.1 < 0 then (some ERR_GEN, r.2) else parse_args_loop malloc be rest r.2
    else if c_at tok 1 = 'p' then
      let r := parse_intf_dev malloc be arg s
      if r.1 < 0 then (some ERR_GEN, r.2) else parse_args_loop malloc be rest r.2
    else if c_at tok 1 = 'h' then (some 0, s)
    else (some ERR_GEN, s)

/-- `parse_args(argc, argv)` with `argv` the list of its `argc` tokens
(`argv[argc]` is `NULL`); the loop starts at `ctr = 1`. -/
def parse_args (malloc : Nat → Bool) (be : Bool) (argv : List (List Char)) (s : State) :
    Option Int × State :=
  parse_args_loop malloc be (argv.drop 1) s

/-! ## Well-formed texts

The texts the command line grammar describes, built from their parts. -/

/-- Value of a string of decimal digits. -/
def dec_value (ds : List Char) : Nat :=
  ds.foldl (fun acc c => acc * 10 + digit_val c) 0

/-- The decimal digit character of `k < 10`. -/
def dig (k : Nat) : Char := Char.ofNat (48 + k)

/-- The decimal numeral of an octet, written out by its length. -/
def octet_text (a : Nat) : List Char :=
  if a < 10 then [dig a]
  else if a < 100 then [dig (a / 10), dig (a % 10)]
  else [dig (a / 100), dig (a / 10 % 10), dig (a % 10)]

/-- The dotted-decimal text `A.B.C.D` of four octets, each octet as its decimal
numeral. -/
def dotted_decimal (a b c d : Nat) : List Char :=
  Nat.toDigits 10 a ++ '.' :: (Nat.toDigits 10 b ++ '.' :: (Nat.toDigits 10 c ++
    '.' :: Nat.toDigits 10 d))

/-- The parts of an interface definition `I,A.B.C.D`: the text of the
identifier and the four octets of the address. -/
structure intf_text where
  id_text : List Char
  a : Nat
  b : Nat
  c : Nat
  d : Nat

/-- The definition is well formed: the identifier is a non-empty string of
decimal digits denoting a value in `[0, 255]` and the address has four
octets. -/
def intf_text.wf (t : intf_text) : Prop :=
  t.id_text ≠ [] ∧ (∀ ch ∈ t.id_text, ch.isDigit = true) ∧ dec_value t.id_text ≤ 255 ∧
    t.a < 256 ∧ t.b < 256 ∧ t.c < 256 ∧ t.d < 256

/-- The text `I,A.B.C.D` of the definition. -/
def intf_text.text (t : intf_text) : List Char :=
  t.id_text ++ ',' :: dotted_decimal t.a t.b t.c t.d

/-- The registry entry the definition denotes. -/
def intf_text.entry (be : Bool) (t : intf_text) : intf_config :=
  ⟨dec_value t.id_text, load_u32 be [t.a, t.b, t.c, t.d]⟩

/-- The tokens `-p <definition>` for a list of interface definitions, in
order. -/
def p_flags : List intf_text → List (List Char)
  | [] => []
  | t :: ts => ['-', 'p'] :: t.text :: p_flags ts

/-- The state after the definitions `ts` have been registered from state `s`. -/
def registered (be : Bool) (ts : List intf_text) (s : State) : State :=
  ⟨s.intf_defs ++ ts.map (intf_text.entry be), s.routing_table, s.mallocs + ts.length⟩

/-- The tokens `toks` make `parse_args` fail in state `s`: a `-p` flag with an
argument `parse_intf_dev` rejects, a `-r` flag with an argument
`parse_install_route` rejects, or a flag whose second character is none of
`r`, `p`, `h`. -/
def failing_tokens (malloc : Nat → Bool) (be : Bool) (s : State)
    (toks : List (List Char)) : Prop :=
  (∃ flag arg, toks = [flag, arg] ∧ c_at flag 0 = '-' ∧ c_at flag 1 = 'p' ∧
      (parse_intf_dev malloc be arg s).1 < 0) ∨
  (∃ flag arg, toks = [flag, arg] ∧ c_at flag 0 = '-' ∧ c_at flag 1 = 'r' ∧
      (parse_install_route malloc be arg s).1 < 0) ∨
  (∃ flag, toks = [flag] ∧ c_at flag 0 = '-' ∧ c_at flag 1 ≠ 'r' ∧ c_at flag 1 ≠ 'p' ∧
      c_at flag 1 ≠ 'h')

/-- The part of a route string behind its first `/`. -/
def after_slash (route : List Char) : List Char :=
  (route.dropWhile (fun c => c != '/')).drop 1

/-- The CIDR field of a route string: from behind the first `/` up to the next
`,`. -/
def cidr_field (route : List Char) : List Char :=
  (after_slash route).takeWhile (fun c => c != ',')

/-- The grammar faults of a route string: no `/`, fewer than two `,` behind
the `/`, or a CIDR field in which something follows the leading digits. -/
def route_malformed (route : List Char) : Prop :=
  '/' ∉ route ∨ (after_slash route).count ',' < 2 ∨
    (cidr_field route).dropWhile Char.isDigit ≠ []

/-- The lowercase hexadecimal digit character of `k < 16`. -/
def hexdig (k : Nat) : Char :=
  if k < 10 then Char.ofNat (48 + k) else Char.ofNat (87 + k)

/-- The two-digit lowercase hexadecimal text of an octet. -/
def hex2 (o : Nat) : List Char := [hexdig (o / 16), hexdig (o % 16)]

/-- Groups of characters joined by single colons. -/
def join_colon : List (List Char) → List Char
  | [] => []
  | [g] => g
  | g :: gs => g ++ ':' :: join_colon gs

/-- The colon-separated two-digit hexadecimal text of a list of octets. -/
def mac_text (os : List Nat) : List Char := join_colon (os.map hex2)

/-- Value of a string of hexadecimal digits. -/
def hex_value (g : List Char) : Nat :=
  g.foldl (fun acc c => acc * 16 + (hex_val c).getD 0) 0

/-- The `unsigned int` that `%x` stores for an unsigned hexadecimal numeral of
value `x`: clamped to `ULONG_MAX`, then reduced modulo `2 ^ 32`. -/
def hex_stored (x : Nat) : Nat :=
  (if x ≥ 2 ^ 64 then 2 ^ 64 - 1 else x) % 2 ^ 32

/-- A plain group: one or more hexadecimal digits. -/
def plain_group (g : List Char) : Prop :=
  g ≠ [] ∧ ∀ c ∈ g, (hex_val c).isSome = true

/-- The text one `%x` directive can consume: white space, at most one sign, at
most one `0x` or `0X`, and hexadecimal digits, with a digit or a `0x`
present. -/
def hex_group (g : List Char) : Prop :=
  ∃ ws sg pre ds, g = ws ++ sg ++ pre ++ ds ∧ (∀ c ∈ ws, isspace c = true) ∧
    (sg = [] ∨ sg = ['-'] ∨ sg = ['+']) ∧
    (pre = [] ∨ pre = ['0', 'x'] ∨ pre = ['0', 'X']) ∧
    (∀ c ∈ ds, (hex_val c).isSome = true) ∧ (pre ≠ [] ∨ ds ≠ [])

/-- The tokens `flag argument` of a list of flags with their arguments, in
order. -/
def flag_tokens : List (List Char × List Char) → List (List Char)
  | [] => []
  | (flag, arg) :: ps => flag :: arg :: flag_tokens ps

/-- Every pair is a `-p` flag whose argument `parse_intf_dev` accepts in the
state the pairs before it have produced.  (`parse_args` goes on to the next
flag only behind such a pair; no argument of `-r` is ever accepted.) -/
def accepted_flags (malloc : Nat → Bool) (be : Bool) :
    List (List Char × List Char) → State → Prop
  | [], _ => True
  | (flag, arg) :: ps, s =>
    c_at flag 0 = '-' ∧ c_at flag 1 = 'p' ∧ ¬ (parse_intf_dev malloc be arg s).1 < 0 ∧
      accepted_flags malloc be ps (parse_intf_dev malloc be arg s).2

/-- The state after the arguments of the pairs have been handed to
`parse_intf_dev` one after the other. -/
def state_after (malloc : Nat → Bool) (be : Bool) :
    List (List Char × List Char) → State → State
  | [], s => s
  | (_, arg) :: ps, s => state_after malloc be ps (parse_intf_dev malloc be arg s).2

/-- The interface definitions whose identifier field `parse_intf_dev` lets
pass: a `,` preceded by nothing at all, or by optional white space, an optional
sign and decimal digits whose value `strtol` returns within `[0, 255]` (after a
minus sign only the value 0 remains). -/
def id_field_accepted (defn : List Char) : Prop :=
  ∃ ws sg ds rest, defn = ws ++ sg ++ ds ++ ',' :: rest ∧ (∀ c ∈ ws, isspace c = true) ∧
    (sg = [] ∨ sg = ['-'] ∨ sg = ['+']) ∧ (∀ c ∈ ds, c.isDigit = true) ∧
    (ds = [] → ws = [] ∧ sg = []) ∧ dec_value ds ≤ 255 ∧ (sg = ['-'] → dec_value ds = 0)

/-! ## Basic facts about the list walks -/

theorem install_route_scan_eq_dropWhile (netmask : Nat) (table : List routing_table_line) :
    install_route_scan netmask table =
      table.dropWhile (fun l => decide (l.netmask > netmask)) := by
  induction table with
  | nil => rfl
  | cons line nxt ih =>
    by_cases h : line.netmask > netmask
    · simp [install_route_scan, List.dropWhile_cons, h, ih]
    · simp [install_route_scan, List.dropWhile_cons, h]

theorem add_intf_config_link_eq_append (new_cfg : intf_config) (defs : List intf_config) :
    add_intf_config_link new_cfg defs = defs ++ [new_cfg] := by
  induction defs with
  | nil => rfl
  | cons cfg nxt ih => simp [add_intf_config_link, ih]

theorem log2_route_netmask :
    ∀ p, p < 33 → 1 ≤ p → 32 - log2_u32 (route_netmask p + 1) = p := by
  decide

theorem prefix_length_route_netmask (p : Nat) (h1 : 1 ≤ p) (h32 : p ≤ 32) (n : Nat)
    (r : routing_table_entry) :
    prefix_length ⟨n, route_netmask p, r⟩ = p :=
  log2_route_netmask p (by omega) h1

/-! ## Separator search in a buffer -/

theorem find_char_set_nul (c : Char) (xs : List Char) (k : Nat)
    (h : find_char c xs = some k) : find_char c (xs.set k NUL) = none := by
  induction xs generalizing k with
  | nil => simp [find_char] at h
  | cons x xs ih =>
    unfold find_char at h
    by_cases hx : x = NUL
    · simp [hx] at h
    · by_cases hc : x = c
      · subst hc
        simp [hx] at h
        subst h
        simp [find_char]
      · simp only [hx, hc, if_false] at h
        cases hf : find_char c xs with
        | none => simp [hf] at h
        | some k0 =>
          simp [hf] at h
          subst h
          simp [find_char, hx, hc, ih k0 hf]

theorem strstr_set_nul (c : Char) (buf : List Char) (start j : Nat)
    (h : strstr buf start c = some j) : strstr (buf.set j NUL) start c = none := by
  unfold strstr at h ⊢
  cases hf : find_char c (buf.drop start) with
  | none => simp [hf] at h
  | some k =>
    simp [hf] at h
    subst h
    have hd : (buf.set (k + start) NUL).drop start = (buf.drop start).set k NUL := by
      rw [List.set_drop, Nat.add_comm]
    simp [hd, find_char_set_nul c _ k hf]

/-- The third separator search of `parse_install_route` starts at `cidr_start`,
where the string now ends at the NUL written over the first `,`: the search
finds nothing and the function leaves through its third `return ERR_FORMAT` at
the latest.  Every call returns `ERR_FORMAT` and leaves the state as it was. -/
theorem parse_install_route_eq (malloc : Nat → Bool) (be : Bool) (route : List Char)
    (s : State) : parse_install_route malloc be route s = (ERR_FORMAT, s) := by
  unfold parse_install_route
  cases h1 : strstr route 0 '/' with
  | none => rfl
  | some slash =>
    simp only []
    cases h2 : strstr (route.set slash NUL) (slash + 1) ',' with
    | none => rfl
    | some comma1 =>
      simp only [strstr_set_nul _ _ _ _ h2]

/-! ## The routing table built by `install_route` -/

/-- C1, evaluated on the code: a /24 route followed by a /8 route, installed
into the empty table, leaves the /8 line in front of the /24 line; read from
the head the prefix lengths are 8, 24, which is not non-increasing. -/
theorem install_route_order_violated :
    (install_routes (fun _ => true)
        [⟨0x0A000A00, 24, 0, ⟨[0x52, 0x54, 0x00, 0xcb, 0xee, 0xf4]⟩⟩,
         ⟨0x0A000000, 8, 1, ⟨[0xaa, 0xbb, 0xcc, 0xdd, 0xee, 0xff]⟩⟩]
        State.init).routing_table.map prefix_length = [8, 24] ∧
    ¬ List.Chain' (fun a b => prefix_length a ≥ prefix_length b)
        (install_routes (fun _ => true)
          [⟨0x0A000A00, 24, 0, ⟨[0x52, 0x54, 0x00, 0xcb, 0xee, 0xf4]⟩⟩,
           ⟨0x0A000000, 8, 1, ⟨[0xaa, 0xbb, 0xcc, 0xdd, 0xee, 0xff]⟩⟩]
          State.init).routing_table := by
  have h : (install_routes (fun _ => true)
        [⟨0x0A000A00, 24, 0, ⟨[0x52, 0x54, 0x00, 0xcb, 0xee, 0xf4]⟩⟩,
         ⟨0x0A000000, 8, 1, ⟨[0xaa, 0xbb, 0xcc, 0xdd, 0xee, 0xff]⟩⟩]
        State.init).routing_table
      = [⟨0, 0xFFFFFF, ⟨1, ⟨[0xaa, 0xbb, 0xcc, 0xdd, 0xee, 0xff]⟩⟩⟩,
         ⟨0, 0xFF, ⟨0, ⟨[0x52, 0x54, 0x00, 0xcb, 0xee, 0xf4]⟩⟩⟩] := by decide
  rw [h]
  refine ⟨by decide, ?_⟩
  rw [List.chain'_pair]
  decide

/-- C2, evaluated on the code: after a /8 route is installed into the empty
table the table holds its line; installing a /24 route next unlinks that line,
and the table holds one line instead of two. -/
theorem install_route_loses_line :
    (install_routes (fun _ => true)
        [⟨0x0A000000, 8, 1, ⟨[0xaa, 0xbb, 0xcc, 0xdd, 0xee, 0xff]⟩⟩]
        State.init).routing_table
      = [⟨0, 0xFFFFFF, ⟨1, ⟨[0xaa, 0xbb, 0xcc, 0xdd, 0xee, 0xff]⟩⟩⟩] ∧
    (install_routes (fun _ => true)
        [⟨0x0A000000, 8, 1, ⟨[0xaa, 0xbb, 0xcc, 0xdd, 0xee, 0xff]⟩⟩,
         ⟨0x0A000A00, 24, 0, ⟨[0x52, 0x54, 0x00, 0xcb, 0xee, 0xf4]⟩⟩]
        State.init).routing_table
      = [⟨0, 0xFF, ⟨0, ⟨[0x52, 0x54, 0x00, 0xcb, 0xee, 0xf4]⟩⟩⟩] := by
  decide

/-- C4, evaluated on the code: for 10.0.10.7/24 the stored network is
`0x0A000A07 & 0xFF = 7`, the host bits, where clearing the host bits gives
`0x0A000A00`; for 10.0.10.0/24 the stored network is `0`, so the two calls
do not store the same network. -/
theorem install_route_stores_host_bits :
    (install_route (fun _ => true) 0x0A000A07 24 0 ⟨[0x52, 0x54, 0x00, 0xcb, 0xee, 0xf4]⟩
        State.init).2.routing_table.map (fun l => l.dst_net) = [7] ∧
    (install_route (fun _ => true) 0x0A000A00 24 0 ⟨[0x52, 0x54, 0x00, 0xcb, 0xee, 0xf4]⟩
        State.init).2.routing_table.map (fun l => l.dst_net) = [0] ∧
    0x0A000A07 &&& ((0xFFFFFFFF <<< (32 - 24)) % 2 ^ 32) = 0x0A000A00 := by
  decide

/-- C6, evaluated on the code: with the table holding one /24 line, which is
ordered, a new /8 route is stored in front of the /24 line, while the
insertion by prefix length puts it behind. -/
theorem install_route_position_differs :
    (install_route (fun _ => true) 0x0A000000 8 1 ⟨[0xaa, 0xbb, 0xcc, 0xdd, 0xee, 0xff]⟩
        ⟨[], [⟨0, 0xFF, ⟨0, ⟨[0x52, 0x54, 0x00, 0xcb, 0xee, 0xf4]⟩⟩⟩], 1⟩).2.routing_table
      = [⟨0, 0xFFFFFF, ⟨1, ⟨[0xaa, 0xbb, 0xcc, 0xdd, 0xee, 0xff]⟩⟩⟩,
         ⟨0, 0xFF, ⟨0, ⟨[0x52, 0x54, 0x00, 0xcb, 0xee, 0xf4]⟩⟩⟩] ∧
    spec_insert 8 ⟨0, 0xFFFFFF, ⟨1, ⟨[0xaa, 0xbb, 0xcc, 0xdd, 0xee, 0xff]⟩⟩⟩
        [⟨0, 0xFF, ⟨0, ⟨[0x52, 0x54, 0x00, 0xcb, 0xee, 0xf4]⟩⟩⟩]
      = [⟨0, 0xFF, ⟨0, ⟨[0x52, 0x54, 0x00, 0xcb, 0xee, 0xf4]⟩⟩⟩,
         ⟨0, 0xFFFFFF, ⟨1, ⟨[0xaa, 0xbb, 0xcc, 0xdd, 0xee, 0xff]⟩⟩⟩] := by
  decide

/-! ## The interface registry -/

/-- C8: when the allocation succeeds, `add_intf_config` returns 0 and the
registry becomes the old registry followed by the new entry, whatever the old
registry holds (an entry with the same identifier included); the routing table
is not touched. -/
theorem add_intf_config_appends (malloc : Nat → Bool) (intf ip_addr : Nat) (s : State)
    (hm : malloc s.mallocs = true) :
    add_intf_config malloc intf ip_addr s =
      (0, { s with intf_defs := s.intf_defs ++ [⟨intf, ip_addr⟩],
                   mallocs := s.mallocs + 1 }) := by
  simp [add_intf_config, hm, add_intf_config_link_eq_append]

theorem add_intf_config_appends_witness :
    (fun _ => true : Nat → Bool) 1 = true ∧
    add_intf_config (fun _ => true) 0 0x0A000A02 ⟨[⟨0, 0x0A000A01⟩], [], 1⟩ =
      (0, ⟨[⟨0, 0x0A000A01⟩, ⟨0, 0x0A000A02⟩], [], 2⟩) :=
  ⟨rfl, add_intf_config_appends (fun _ => true) 0 0x0A000A02 ⟨[⟨0, 0x0A000A01⟩], [], 1⟩ rfl⟩

/-! ## Scanning well-formed texts -/

theorem isDigit_ne (c : Char) (h : c.isDigit = true) :
    c ≠ NUL ∧ c ≠ ',' ∧ c ≠ '-' ∧ c ≠ '+' ∧ isspace c = false := by
  have key : ∀ x : Char, x.isDigit = false → c ≠ x := by
    rintro x hx rfl
    rw [h] at hx
    exact Bool.noConfusion hx
  have h1 := key ' ' (by decide)
  have h2 := key '\t' (by decide)
  have h3 := key '\n' (by decide)
  have h4 := key (Char.ofNat 11) (by decide)
  have h5 := key (Char.ofNat 12) (by decide)
  have h6 := key '\r' (by decide)
  refine ⟨key _ (by decide), key _ (by decide), key _ (by decide), key _ (by decide), ?_⟩
  simp [isspace, h1, h2, h3, h4, h5, h6]

theorem find_char_digits (ds rest : List Char) (hd : ∀ c ∈ ds, c.isDigit = true) :
    find_char ',' (ds ++ ',' :: rest) = some ds.length := by
  induction ds with
  | nil => simp [find_char, NUL]
  | cons x xs ih =>
    have hx := isDigit_ne x (hd x (List.mem_cons_self _ _))
    have := ih (fun c hc => hd c (List.mem_cons_of_mem _ hc))
    simp [find_char, hx.1, hx.2.1, this]

theorem scan_digits_append (ds : List Char) (x : Char) (rest : List Char) (acc : Nat)
    (hd : ∀ c ∈ ds, c.isDigit = true) (hx : x.isDigit = false) :
    scan_digits (ds ++ x :: rest) acc =
      (ds.foldl (fun acc c => acc * 10 + digit_val c) acc, ds.length) := by
  induction ds generalizing acc with
  | nil => simp [scan_digits, hx]
  | cons y ys ih =>
    have hy := hd y (List.mem_cons_self _ _)
    have := ih (acc * 10 + digit_val y) (fun c hc => hd c (List.mem_cons_of_mem _ hc))
    simp [scan_digits, hy, this]

theorem strtol_digits (ds rest : List Char) (hne : ds ≠ [])
    (hd : ∀ c ∈ ds, c.isDigit = true) (hv : dec_value ds ≤ 255) :
    strtol (ds ++ NUL :: rest) = ((dec_value ds : Int), ds.length) := by
  obtain ⟨y, ys, rfl⟩ := List.exists_cons_of_ne_nil hne
  have hy := isDigit_ne y (hd y (List.mem_cons_self _ _))
  have hsc := scan_digits_append (y :: ys) NUL rest 0 hd (by decide)
  have hval : List.foldl (fun acc c => acc * 10 + digit_val c) 0 (y :: ys)
      = dec_value (y :: ys) := rfl
  rw [hval] at hsc
  have hws : List.takeWhile isspace (y :: (ys ++ NUL :: rest)) = [] := by
    simp [List.takeWhile_cons, hy.2.2.2.2]
  have hsc2 : scan_digits (y :: (ys ++ NUL :: rest)) 0
      = (dec_value (y :: ys), (y :: ys).length) := hsc
  have hb : (dec_value (y :: ys) : Int) ≤ 255 := by exact_mod_cast hv
  have h0 : (0 : Int) ≤ (dec_value (y :: ys) : Int) := Int.natCast_nonneg _
  unfold strtol
  simp only [hws, List.length_nil, List.cons_append, List.drop_zero, hy.2.2.1, hy.2.2.2.1,
    if_false, hsc2]
  have hlen : ¬ ((y :: ys).length = 0) := by simp
  simp only [hlen, if_false, Nat.zero_add, Bool.false_eq_true]
  have hclamp : max LONG_MIN (min LONG_MAX (dec_value (y :: ys) : Int))
      = (dec_value (y :: ys) : Int) := by
    unfold LONG_MIN LONG_MAX
    omega
  rw [hclamp]

set_option maxRecDepth 100000 in
theorem toDigits_eq_octet_text : ∀ a, a < 256 → Nat.toDigits 10 a = octet_text a := by
  decide

theorem dig_facts : ∀ k, k < 10 →
    (dig k).isDigit = true ∧ digit_val (dig k) = k ∧ dig k ≠ NUL := by
  decide

theorem inet_pton4_digit (ch : Char) (src : List Char) (tmp : List Nat) (cur octets : Nat)
    (saw_digit : Bool) (hd : ch.isDigit = true) (hn : ch ≠ NUL) :
    inet_pton4 (ch :: src) tmp cur octets saw_digit =
      if saw_digit && cur == 0 then none
      else if cur * 10 + digit_val ch > 255 then none
      else if !saw_digit && octets + 1 > 4 then none
      else inet_pton4 src tmp (cur * 10 + digit_val ch)
        (if saw_digit then octets else octets + 1) true := by
  simp [inet_pton4, hd, hn]

theorem inet_pton4_octet (a : Nat) (ha : a < 256) (rest : List Char) (tmp : List Nat)
    (octets : Nat) (ho : octets < 4) :
    inet_pton4 (Nat.toDigits 10 a ++ rest) tmp 0 octets false =
      inet_pton4 rest tmp a (octets + 1) true := by
  rw [toDigits_eq_octet_text a ha]
  unfold octet_text
  have ho4 : ¬ (4 < octets + 1) := by omega
  by_cases h10 : a < 10
  · obtain ⟨h1, h2, h3⟩ := dig_facts a h10
    have hlt : ¬ (255 < a) := by omega
    simp [h10, inet_pton4_digit _ _ _ _ _ _ h1 h3, h2, hlt, ho4]
  · by_cases h100 : a < 100
    · obtain ⟨h1, h2, h3⟩ := dig_facts (a / 10) (by omega)
      obtain ⟨k1, k2, k3⟩ := dig_facts (a % 10) (by omega)
      have e : a / 10 * 10 + a % 10 = a := by omega
      have hlt : ¬ (255 < a / 10) := by omega
      have hlt2 : ¬ (255 < a) := by omega
      have hz : ¬ (a / 10 = 0) := by omega
      simp [h10, h100, inet_pton4_digit _ _ _ _ _ _ h1 h3, inet_pton4_digit _ _ _ _ _ _ k1 k3,
        h2, k2, e, hlt, hlt2, hz, ho4]
    · obtain ⟨h1, h2, h3⟩ := dig_facts (a / 100) (by omega)
      obtain ⟨k1, k2, k3⟩ := dig_facts (a / 10 % 10) (by omega)
      obtain ⟨m1, m2, m3⟩ := dig_facts (a % 10) (by omega)
      have e : (a / 100 * 10 + a / 10 % 10) * 10 + a % 10 = a := by omega
      have hlt : ¬ (255 < a / 100) := by omega
      have hlt1 : ¬ (255 < a / 100 * 10 + a / 10 % 10) := by omega
      have hlt2 : ¬ (255 < a) := by omega
      have hz : ¬ (a / 100 = 0) := by omega
      have hz2 : ¬ (a / 100 * 10 + a / 10 % 10 = 0) := by omega
      simp [h10, h100, inet_pton4_digit _ _ _ _ _ _ h1 h3, inet_pton4_digit _ _ _ _ _ _ k1 k3,
        inet_pton4_digit _ _ _ _ _ _ m1 m3, h2, k2, m2, e, hlt, hlt1, hlt2, hz, hz2, ho4]

theorem inet_pton4_dot (src : List Char) (tmp : List Nat) (cur octets : Nat)
    (ho : octets ≠ 4) :
    inet_pton4 ('.' :: src) tmp cur octets true = inet_pton4 src (tmp ++ [cur]) 0 octets false := by
  have h1 : ('.' : Char) ≠ NUL := by decide
  have h2 : ('.' : Char).isDigit = false := by decide
  simp [inet_pton4, h1, h2, ho]

theorem inet_pton_dotted (be : Bool) (a b c d : Nat) (ha : a < 256) (hb : b < 256)
    (hc : c < 256) (hd : d < 256) :
    inet_pton be (dotted_decimal a b c d) = some (load_u32 be [a, b, c, d]) := by
  have hlast : inet_pton4 (Nat.toDigits 10 d) [a, b, c] 0 3 false = some [a, b, c, d] := by
    have := inet_pton4_octet d hd [] [a, b, c] 3 (by omega)
    rw [List.append_nil] at this
    rw [this]
    simp [inet_pton4]
  unfold inet_pton dotted_decimal
  rw [inet_pton4_octet a ha _ _ 0 (by omega), inet_pton4_dot _ _ _ _ (by omega),
    inet_pton4_octet b hb _ _ 1 (by omega), inet_pton4_dot _ _ _ _ (by omega),
    inet_pton4_octet c hc _ _ 2 (by omega), inet_pton4_dot _ _ _ _ (by omega)]
  simp only [List.nil_append, List.cons_append]
  rw [hlast]
  rfl

/-! ## `parse_intf_dev` -/

theorem parse_intf_dev_wf (malloc : Nat → Bool) (be : Bool) (t : intf_text) (s : State)
    (hwf : t.wf) (hm : malloc s.mallocs = true) :
    parse_intf_dev malloc be t.text s =
      (0, { s with intf_defs := s.intf_defs ++ [t.entry be], mallocs := s.mallocs + 1 }) := by
  obtain ⟨hne, hd, hv, ha, hb, hc, hdd⟩ := hwf
  have hfind : strstr t.text 0 ',' = some t.id_text.length := by
    simp [strstr, intf_text.text, find_char_digits _ _ hd]
  have hset : t.text.set t.id_text.length NUL
      = t.id_text ++ NUL :: dotted_decimal t.a t.b t.c t.d := by
    simp [intf_text.text]
  have hst := strtol_digits t.id_text (dotted_decimal t.a t.b t.c t.d) hne hd hv
  have hat : c_at (t.id_text ++ NUL :: dotted_decimal t.a t.b t.c t.d) t.id_text.length = NUL := by
    unfold c_at
    rw [List.getD_append_right _ _ _ _ (le_refl _)]
    simp
  have hdrop : (t.id_text ++ NUL :: dotted_decimal t.a t.b t.c t.d).drop (t.id_text.length + 1)
      = dotted_decimal t.a t.b t.c t.d := by
    simp
  have hu8 : to_u8 (dec_value t.id_text : Int) = (dec_value t.id_text : Int) := by
    unfold to_u8
    omega
  unfold parse_intf_dev
  simp only [hfind, hset, hst, hat, hdrop, hu8, inet_pton_dotted be _ _ _ _ ha hb hc hdd,
    ne_eq, not_true_eq_false, if_false, Int.toNat_ofNat]
  simp [add_intf_config, hm, add_intf_config_link_eq_append, intf_text.entry]

theorem parse_intf_dev_cases (malloc : Nat → Bool) (be : Bool) (defn : List Char)
    (s : State) :
    parse_intf_dev malloc be defn s = (ERR_FORMAT, s) ∨
      ∃ intf ip_addr, parse_intf_dev malloc be defn s = add_intf_config malloc intf ip_addr s := by
  unfold parse_intf_dev
  cases strstr defn 0 ',' with
  | none => exact Or.inl rfl
  | some comma =>
    simp only []
    split_ifs with h1 h2
    · exact Or.inl rfl
    · exact Or.inl rfl
    · cases inet_pton be (List.drop (comma + 1) (defn.set comma NUL)) with
      | none => exact Or.inl rfl
      | some ip => exact Or.inr ⟨_, _, rfl⟩

theorem parse_intf_dev_neg (malloc : Nat → Bool) (be : Bool) (defn : List Char) (s : State)
    (hm : malloc s.mallocs = true) (hneg : (parse_intf_dev malloc be defn s).1 < 0) :
    (parse_intf_dev malloc be defn s).2 = s := by
  rcases parse_intf_dev_cases malloc be defn s with h | ⟨intf, ip, h⟩
  · rw [h]
  · rw [h] at hneg
    simp [add_intf_config, hm] at hneg

/-- C7: a well-formed interface definition `I,A.B.C.D` is accepted when the
allocation succeeds: `inet_pton` converts the address, `parse_intf_dev` returns
0, the registry is the registry before followed by the one new entry
`(I, ip_addr)` with the value `inet_pton` produced, and the routing table is
unchanged. -/
theorem parse_intf_dev_accepts (malloc : Nat → Bool) (be : Bool) (t : intf_text) (s : State)
    (hwf : t.wf) (hm : malloc s.mallocs = true) :
    inet_pton be (dotted_decimal t.a t.b t.c t.d) = some (load_u32 be [t.a, t.b, t.c, t.d]) ∧
    (parse_intf_dev malloc be t.text s).1 = 0 ∧
    (parse_intf_dev malloc be t.text s).2.intf_defs =
      s.intf_defs ++ [⟨dec_value t.id_text, load_u32 be [t.a, t.b, t.c, t.d]⟩] ∧
    (parse_intf_dev malloc be t.text s).2.routing_table = s.routing_table := by
  rw [parse_intf_dev_wf malloc be t s hwf hm]
  exact ⟨inet_pton_dotted be _ _ _ _ hwf.2.2.2.1 hwf.2.2.2.2.1 hwf.2.2.2.2.2.1
    hwf.2.2.2.2.2.2, rfl, rfl, rfl⟩

theorem parse_intf_dev_accepts_witness :
    (⟨['0'], 10, 0, 10, 1⟩ : intf_text).wf ∧
    (fun _ => true : Nat → Bool) State.init.mallocs = true ∧
    (⟨['0'], 10, 0, 10, 1⟩ : intf_text).text = "0,10.0.10.1".toList ∧
    inet_pton true "10.0.10.1".toList = some 0x0A000A01 ∧
    (parse_intf_dev (fun _ => true) true "0,10.0.10.1".toList State.init).1 = 0 ∧
    (parse_intf_dev (fun _ => true) true "0,10.0.10.1".toList State.init).2.intf_defs =
      [⟨0, 0x0A000A01⟩] ∧
    (parse_intf_dev (fun _ => true) true "0,10.0.10.1".toList State.init).2.routing_table = [] :=
  ⟨by unfold intf_text.wf; decide, rfl, by decide,
    parse_intf_dev_accepts (fun _ => true) true ⟨['0'], 10, 0, 10, 1⟩ State.init
      (by unfold intf_text.wf; decide) rfl⟩

/-! ## `parse_args` -/

theorem parse_args_loop_p (malloc : Nat → Bool) (be : Bool) (flag arg : List Char)
    (rest : List (List Char)) (s : State) (h0 : c_at flag 0 = '-') (h1 : c_at flag 1 = 'p') :
    parse_args_loop malloc be (flag :: arg :: rest) s =
      if (parse_intf_dev malloc be arg s).1 < 0 then
        (some ERR_GEN, (parse_intf_dev malloc be arg s).2)
      else parse_args_loop malloc be rest (parse_intf_dev malloc be arg s).2 := by
  simp [parse_args_loop, h0, h1]

theorem parse_args_loop_r (malloc : Nat → Bool) (be : Bool) (flag arg : List Char)
    (rest : List (List Char)) (s : State) (h0 : c_at flag 0 = '-') (h1 : c_at flag 1 = 'r') :
    parse_args_loop malloc be (flag :: arg :: rest) s = (some ERR_GEN, s) := by
  simp [parse_args_loop, h0, h1, parse_install_route_eq, ERR_FORMAT]

theorem parse_args_loop_unknown (malloc : Nat → Bool) (be : Bool) (flag : List Char)
    (rest : List (List Char)) (s : State) (h0 : c_at flag 0 = '-') (hr : c_at flag 1 ≠ 'r')
    (hp : c_at flag 1 ≠ 'p') (hh : c_at flag 1 ≠ 'h') :
    parse_args_loop malloc be (flag :: rest) s = (some ERR_GEN, s) := by
  cases rest with
  | nil => simp [parse_args_loop, h0, hr, hp, hh]
  | cons arg rest => simp [parse_args_loop, h0, hr, hp, hh]

theorem parse_args_loop_failing (malloc : Nat → Bool) (be : Bool)
    (failing rest : List (List Char)) (s : State) (hm : malloc s.mallocs = true)
    (hf : failing_tokens malloc be s failing) :
    parse_args_loop malloc be (failing ++ rest) s = (some ERR_GEN, s) := by
  rcases hf with ⟨flag, arg, rfl, h0, h1, hneg⟩ | ⟨flag, arg, rfl, h0, h1, _⟩ |
    ⟨flag, rfl, h0, hr, hp, hh⟩
  · have := parse_intf_dev_neg malloc be arg s hm hneg
    simp [parse_args_loop_p _ _ _ _ _ _ h0 h1, hneg, this]
  · simpa using parse_args_loop_r malloc be flag arg rest s h0 h1
  · simpa using parse_args_loop_unknown malloc be flag rest s h0 hr hp hh

theorem parse_args_loop_p_flags (malloc : Nat → Bool) (be : Bool) (ts : List intf_text)
    (tail : List (List Char)) (s : State) (hm : ∀ k, malloc k = true)
    (hwf : ∀ t ∈ ts, t.wf) :
    parse_args_loop malloc be (p_flags ts ++ tail) s =
      parse_args_loop malloc be tail (registered be ts s) := by
  induction ts generalizing s with
  | nil => simp [p_flags, registered]
  | cons t ts ih =>
    have hw := parse_intf_dev_wf malloc be t s (hwf t (List.mem_cons_self _ _)) (hm _)
    have hstep : parse_args_loop malloc be (p_flags (t :: ts) ++ tail) s =
        parse_args_loop malloc be (p_flags ts ++ tail)
          { s with intf_defs := s.intf_defs ++ [t.entry be], mallocs := s.mallocs + 1 } := by
      have h := parse_args_loop_p malloc be ['-', 'p'] t.text (p_flags ts ++ tail) s
        (by decide) (by decide)
      rw [hw] at h
      simpa [p_flags] using h
    rw [hstep, ih _ (fun u hu => hwf u (List.mem_cons_of_mem _ hu))]
    congr 1
    simp [registered, Nat.add_assoc, Nat.add_comm 1]

/-- C9: when the tokens before the failing one are `-p` flags with well-formed
interface definitions (allocations succeeding), `parse_args` returns `ERR_GEN`,
the registry holds the entries it had followed by the entries of those
definitions in argument order, the routing table is as it was, and the result
does not depend on the tokens behind the failing one. -/
theorem parse_args_fail_fast (malloc : Nat → Bool) (be : Bool) (prog : List Char)
    (ts : List intf_text) (failing rest : List (List Char)) (s : State)
    (hm : ∀ k, malloc k = true) (hwf : ∀ t ∈ ts, t.wf)
    (hf : failing_tokens malloc be (registered be ts s) failing) :
    (parse_args malloc be (prog :: (p_flags ts ++ (failing ++ rest))) s).1 = some ERR_GEN ∧
    (parse_args malloc be (prog :: (p_flags ts ++ (failing ++ rest))) s).2.intf_defs =
      s.intf_defs ++ ts.map (intf_text.entry be) ∧
    (parse_args malloc be (prog :: (p_flags ts ++ (failing ++ rest))) s).2.routing_table =
      s.routing_table ∧
    parse_args malloc be (prog :: (p_flags ts ++ (failing ++ rest))) s =
      parse_args malloc be (prog :: (p_flags ts ++ failing)) s := by
  have h1 : ∀ tl, parse_args malloc be (prog :: (p_flags ts ++ (failing ++ tl))) s =
      (some ERR_GEN, registered be ts s) := by
    intro tl
    unfold parse_args
    rw [List.drop_one, List.tail_cons, parse_args_loop_p_flags malloc be ts _ s hm hwf,
      parse_args_loop_failing malloc be failing tl _ (hm _) hf]
  have h2 := h1 []
  rw [List.append_nil] at h2
  rw [h1 rest, h2]
  exact ⟨rfl, rfl, rfl, rfl⟩

theorem parse_args_fail_fast_witness :
    (∀ k, (fun _ => true : Nat → Bool) k = true) ∧
    (∀ t ∈ [(⟨['0'], 10, 0, 10, 1⟩ : intf_text)], t.wf) ∧
    failing_tokens (fun _ => true) true
      (registered true [(⟨['0'], 10, 0, 10, 1⟩ : intf_text)] State.init)
      ["-r".toList, "10.0.10.0/24,52:54:00:cb:ee:f4,0".toList] ∧
    (parse_args (fun _ => true) true
      ["router".toList, "-p".toList, "0,10.0.10.1".toList, "-r".toList,
       "10.0.10.0/24,52:54:00:cb:ee:f4,0".toList, "-p".toList, "1,10.0.11.1".toList]
      State.init).1 = some ERR_GEN ∧
    (parse_args (fun _ => true) true
      ["router".toList, "-p".toList, "0,10.0.10.1".toList, "-r".toList,
       "10.0.10.0/24,52:54:00:cb:ee:f4,0".toList, "-p".toList, "1,10.0.11.1".toList]
      State.init).2.intf_defs = [⟨0, 0x0A000A01⟩] ∧
    (parse_args (fun _ => true) true
      ["router".toList, "-p".toList, "0,10.0.10.1".toList, "-r".toList,
       "10.0.10.0/24,52:54:00:cb:ee:f4,0".toList, "-p".toList, "1,10.0.11.1".toList]
      State.init).2.routing_table = [] ∧
    parse_args (fun _ => true) true
      ["router".toList, "-p".toList, "0,10.0.10.1".toList, "-r".toList,
       "10.0.10.0/24,52:54:00:cb:ee:f4,0".toList, "-p".toList, "1,10.0.11.1".toList]
      State.init =
    parse_args (fun _ => true) true
      ["router".toList, "-p".toList, "0,10.0.10.1".toList, "-r".toList,
       "10.0.10.0/24,52:54:00:cb:ee:f4,0".toList]
      State.init :=
  ⟨fun _ => rfl,
   by simp [intf_text.wf, dec_value, digit_val],
   Or.inr (Or.inl ⟨_, _, rfl, by decide, by decide, by decide⟩),
   parse_args_fail_fast (fun _ => true) true "router".toList [⟨['0'], 10, 0, 10, 1⟩]
     ["-r".toList, "10.0.10.0/24,52:54:00:cb:ee:f4,0".toList]
     ["-p".toList, "1,10.0.11.1".toList] State.init (fun _ => rfl)
     (by simp [intf_text.wf, dec_value, digit_val])
     (Or.inr (Or.inl ⟨_, _, rfl, by decide, by decide, by decide⟩))⟩

/-! ## `parse_install_route` on route definitions -/

/-- C3, evaluated on the code: on the route definition of the documentation,
`10.0.10.2/32,52:54:00:cb:ee:f4,0`, the `/` is found at index 9 and the first
`,` at index 12; once that `,` is overwritten by NUL the third search, which
starts at index 10 again, finds no `,`, and `parse_install_route` returns
`ERR_FORMAT` with the routing table still empty. -/
theorem parse_install_route_documented_example :
    strstr "10.0.10.2/32,52:54:00:cb:ee:f4,0".toList 0 '/' = some 9 ∧
    strstr ("10.0.10.2/32,52:54:00:cb:ee:f4,0".toList.set 9 NUL) 10 ',' = some 12 ∧
    strstr (("10.0.10.2/32,52:54:00:cb:ee:f4,0".toList.set 9 NUL).set 12 NUL) 10 ',' = none ∧
    ∀ be : Bool,
      parse_install_route (fun _ => true) be "10.0.10.2/32,52:54:00:cb:ee:f4,0".toList
        State.init = (ERR_FORMAT, State.init) := by
  decide

/-- C5, evaluated on the code: on the arguments
`-p 0,10.0.10.1 -r 10.0.10.0/24,52:54:00:cb:ee:f4,0 -r 0.0.0.0/0,aa:bb:cc:dd:ee:ff,1`
`parse_args` registers the interface, then fails on the first `-r`: it returns
`ERR_GEN` and the routing table is empty. -/
theorem parse_args_end_to_end_fails :
    ∀ be : Bool,
      parse_args (fun _ => true) be
        ["router".toList, "-p".toList, "0,10.0.10.1".toList,
         "-r".toList, "10.0.10.0/24,52:54:00:cb:ee:f4,0".toList,
         "-r".toList, "0.0.0.0/0,aa:bb:cc:dd:ee:ff,1".toList]
        State.init =
      (some ERR_GEN, ⟨[⟨0, load_u32 be [10, 0, 10, 1]⟩], [], 1⟩) := by
  decide

/-- C10: a route string without `/`, with fewer than two `,` behind the `/`, or
with something behind the digits of its CIDR field makes `parse_install_route`
return `ERR_FORMAT` and leaves the routing table (the whole state) unchanged. -/
theorem parse_install_route_rejects (malloc : Nat → Bool) (be : Bool) (route : List Char)
    (s : State) (_h : route_malformed route) :
    (parse_install_route malloc be route s).1 = ERR_FORMAT ∧
    (parse_install_route malloc be route s).2.routing_table = s.routing_table ∧
    (parse_install_route malloc be route s).2 = s := by
  rw [parse_install_route_eq]
  exact ⟨rfl, rfl, rfl⟩

theorem parse_install_route_rejects_witness :
    (route_malformed "10.0.10.2/32,52:54:00:cb:ee:f4".toList ∧
      (parse_install_route (fun _ => true) true "10.0.10.2/32,52:54:00:cb:ee:f4".toList
        State.init).1 = -2 ∧
      (parse_install_route (fun _ => true) true "10.0.10.2/32,52:54:00:cb:ee:f4".toList
        State.init).2.routing_table = [] ∧
      (parse_install_route (fun _ => true) true "10.0.10.2/32,52:54:00:cb:ee:f4".toList
        State.init).2 = State.init) ∧
    (route_malformed "10.0.10.2/32x,52:54:00:cb:ee:f4,0".toList ∧
      (parse_install_route (fun _ => true) true "10.0.10.2/32x,52:54:00:cb:ee:f4,0".toList
        State.init).1 = -2 ∧
      (parse_install_route (fun _ => true) true "10.0.10.2/32x,52:54:00:cb:ee:f4,0".toList
        State.init).2.routing_table = [] ∧
      (parse_install_route (fun _ => true) true "10.0.10.2/32x,52:54:00:cb:ee:f4,0".toList
        State.init).2 = State.init) :=
  ⟨⟨by unfold route_malformed; decide,
     parse_install_route_rejects (fun _ => true) true "10.0.10.2/32,52:54:00:cb:ee:f4".toList
       State.init (by unfold route_malformed; decide)⟩,
   ⟨by unfold route_malformed; decide,
     parse_install_route_rejects (fun _ => true) true
       "10.0.10.2/32x,52:54:00:cb:ee:f4,0".toList
       State.init (by unfold route_malformed; decide)⟩⟩

/-! ## The exact effect of `install_route` and the order it maintains -/

theorem route_netmask_eq : ∀ p, p < 33 → 1 ≤ p → route_netmask p = (1 <<< (32 - p)) - 1 := by
  decide

/-- C17: for a prefix length in `[1, 32]` and a successful allocation,
`install_route` returns 0 and the table becomes the new line
`(n & m, m, i, a)`, `m = (1 << (32 - p)) - 1`, followed by what is left of the
old table once its leading lines with a netmask greater than `m` are dropped;
those leading lines are exactly what is removed. -/
theorem install_route_exact (malloc : Nat → Bool) (n p i : Nat) (a : ether_addr) (s : State)
    (h1 : 1 ≤ p) (h32 : p ≤ 32) (hm : malloc s.mallocs = true) :
    install_route malloc n p i a s =
      (0, { s with
              routing_table :=
                ⟨n &&& ((1 <<< (32 - p)) - 1), (1 <<< (32 - p)) - 1, ⟨i, a⟩⟩ ::
                  s.routing_table.dropWhile (fun e => decide (e.netmask > (1 <<< (32 - p)) - 1)),
              mallocs := s.mallocs + 1 }) ∧
    s.routing_table =
      s.routing_table.takeWhile (fun e => decide (e.netmask > (1 <<< (32 - p)) - 1)) ++
        s.routing_table.dropWhile (fun e => decide (e.netmask > (1 <<< (32 - p)) - 1)) := by
  refine ⟨?_, (List.takeWhile_append_dropWhile _ _).symm⟩
  unfold install_route
  simp only [hm, if_true, install_route_scan_eq_dropWhile,
    route_netmask_eq p (by omega) h1]

theorem install_route_exact_witness :
    1 ≤ 24 ∧ 24 ≤ 32 ∧ (fun _ => true : Nat → Bool) 1 = true ∧
    install_route (fun _ => true) 0x0A000A07 24 0 ⟨[0x52, 0x54, 0x00, 0xcb, 0xee, 0xf4]⟩
        ⟨[], [⟨0, 0xFFFFFF, ⟨1, ⟨[0xaa, 0xbb, 0xcc, 0xdd, 0xee, 0xff]⟩⟩⟩], 1⟩ =
      (0, ⟨[], [⟨7, 0xFF, ⟨0, ⟨[0x52, 0x54, 0x00, 0xcb, 0xee, 0xf4]⟩⟩⟩], 2⟩) :=
  ⟨by decide, by decide, rfl,
    (install_route_exact (fun _ => true) 0x0A000A07 24 0 ⟨[0x52, 0x54, 0x00, 0xcb, 0xee, 0xf4]⟩
      ⟨[], [⟨0, 0xFFFFFF, ⟨1, ⟨[0xaa, 0xbb, 0xcc, 0xdd, 0xee, 0xff]⟩⟩⟩], 1⟩
      (by decide) (by decide) rfl).1⟩

theorem install_route_scan_suffix (netmask : Nat) (table : List routing_table_line) :
    install_route_scan netmask table <:+ table := by
  rw [install_route_scan_eq_dropWhile]
  exact List.dropWhile_suffix _

theorem install_route_scan_head (netmask : Nat) (table : List routing_table_line) :
    ∀ y ∈ (install_route_scan netmask table).head?, y.netmask ≤ netmask := by
  induction table with
  | nil => simp [install_route_scan]
  | cons line nxt ih =>
    by_cases h : line.netmask > netmask
    · simpa [install_route_scan, h] using ih
    · simp only [install_route_scan, h, if_false, List.head?_cons, Option.mem_def,
        Option.some.injEq]
      rintro y rfl
      omega

theorem install_route_chain (malloc : Nat → Bool) (n p i : Nat) (a : ether_addr) (s : State)
    (h : List.Chain' (fun x y => x.netmask ≥ y.netmask) s.routing_table) :
    List.Chain' (fun x y => x.netmask ≥ y.netmask)
      (install_route malloc n p i a s).2.routing_table := by
  have hs := h.suffix (install_route_scan_suffix (route_netmask p) s.routing_table)
  unfold install_route
  by_cases hm : malloc s.mallocs = true
  · simp only [hm, if_true]
    rw [List.chain'_cons']
    exact ⟨fun y hy => install_route_scan_head _ _ y hy, hs⟩
  · simp only [hm]
    exact hs

theorem install_route_mem (malloc : Nat → Bool) (n p i : Nat) (a : ether_addr) (s : State)
    (l : routing_table_line) (hl : l ∈ (install_route malloc n p i a s).2.routing_table) :
    l ∈ s.routing_table ∨ l.netmask = route_netmask p := by
  have hsub := (install_route_scan_suffix (route_netmask p) s.routing_table).subset
  unfold install_route at hl
  by_cases hm : malloc s.mallocs = true
  · simp only [hm, if_true, List.mem_cons] at hl
    rcases hl with rfl | hl
    · exact Or.inr rfl
    · exact Or.inl (hsub hl)
  · simp only [hm] at hl
    exact Or.inl (hsub hl)

theorem install_routes_chain (malloc : Nat → Bool) (rs : List route_args) (s : State)
    (h : List.Chain' (fun x y => x.netmask ≥ y.netmask) s.routing_table) :
    List.Chain' (fun x y => x.netmask ≥ y.netmask) (install_routes malloc rs s).routing_table := by
  induction rs generalizing s with
  | nil => exact h
  | cons r rs ih => exact ih _ (install_route_chain malloc _ _ _ _ s h)

theorem install_routes_mem (malloc : Nat → Bool) (rs : List route_args) (s : State)
    (l : routing_table_line) (hl : l ∈ (install_routes malloc rs s).routing_table) :
    l ∈ s.routing_table ∨ ∃ r ∈ rs, l.netmask = route_netmask r.prf := by
  induction rs generalizing s with
  | nil => exact Or.inl hl
  | cons r rs ih =>
    rcases ih _ hl with h | ⟨r2, hr2, e⟩
    · rcases install_route_mem malloc _ _ _ _ s l h with h2 | h2
      · exact Or.inl h2
      · exact Or.inr ⟨r, List.mem_cons_self _ _, h2⟩
    · exact Or.inr ⟨r2, List.mem_cons_of_mem _ hr2, e⟩

theorem log2_u32_mono (n m : Nat) (h : n ≤ m) : log2_u32 n ≤ log2_u32 m := by
  unfold log2_u32
  rw [← List.countP_eq_length_filter, ← List.countP_eq_length_filter]
  apply List.countP_mono_left
  intro k _ hk
  simp only [decide_eq_true_eq] at hk ⊢
  omega

theorem prefix_length_antitone (x y : routing_table_line) (h : x.netmask ≥ y.netmask) :
    prefix_length x ≤ prefix_length y := by
  have := log2_u32_mono (y.netmask + 1) (x.netmask + 1) (by omega)
  unfold prefix_length
  omega

/-- C18: starting from the empty table, after any sequence of `install_route`
calls (whatever the allocations do) the stored netmasks are non-increasing from
the head; when all prefix lengths are in `[1, 32]` every stored line has the
prefix length of one of the calls, and the prefix lengths are non-decreasing
from the head, shortest prefix first. -/
theorem install_routes_netmask_order (malloc : Nat → Bool) (rs : List route_args) :
    List.Chain' (fun x y => x.netmask ≥ y.netmask)
      (install_routes malloc rs State.init).routing_table ∧
    ((∀ r ∈ rs, 1 ≤ r.prf ∧ r.prf ≤ 32) →
      (∀ l ∈ (install_routes malloc rs State.init).routing_table,
        ∃ r ∈ rs, prefix_length l = r.prf) ∧
      List.Chain' (fun x y => prefix_length x ≤ prefix_length y)
        (install_routes malloc rs State.init).routing_table) := by
  have hc := install_routes_chain malloc rs State.init (by simp [State.init])
  refine ⟨hc, fun hp => ⟨?_, hc.imp (fun x y h => prefix_length_antitone x y h)⟩⟩
  intro l hl
  rcases install_routes_mem malloc rs State.init l hl with h | ⟨r, hr, e⟩
  · simp [State.init] at h
  · refine ⟨r, hr, ?_⟩
    have := prefix_length_route_netmask r.prf (hp r hr).1 (hp r hr).2 l.dst_net l.rte
    rw [← e] at this
    exact this

theorem install_routes_netmask_order_witness :
    (∀ r ∈ [(⟨0x0A000A00, 24, 0, ⟨[0x52, 0x54, 0x00, 0xcb, 0xee, 0xf4]⟩⟩ : route_args),
            ⟨0x0A000000, 8, 1, ⟨[0xaa, 0xbb, 0xcc, 0xdd, 0xee, 0xff]⟩⟩],
        1 ≤ r.prf ∧ r.prf ≤ 32) ∧
    (install_routes (fun _ => true)
        [⟨0x0A000A00, 24, 0, ⟨[0x52, 0x54, 0x00, 0xcb, 0xee, 0xf4]⟩⟩,
         ⟨0x0A000000, 8, 1, ⟨[0xaa, 0xbb, 0xcc, 0xdd, 0xee, 0xff]⟩⟩]
        State.init).routing_table.map (fun l => (l.netmask, prefix_length l))
      = [(0xFFFFFF, 8), (0xFF, 24)] ∧
    List.Chain' (fun x y => prefix_length x ≤ prefix_length y)
      (install_routes (fun _ => true)
        [⟨0x0A000A00, 24, 0, ⟨[0x52, 0x54, 0x00, 0xcb, 0xee, 0xf4]⟩⟩,
         ⟨0x0A000000, 8, 1, ⟨[0xaa, 0xbb, 0xcc, 0xdd, 0xee, 0xff]⟩⟩]
        State.init).routing_table :=
  ⟨by decide, by decide,
    ((install_routes_netmask_order (fun _ => true)
      [⟨0x0A000A00, 24, 0, ⟨[0x52, 0x54, 0x00, 0xcb, 0xee, 0xf4]⟩⟩,
       ⟨0x0A000000, 8, 1, ⟨[0xaa, 0xbb, 0xcc, 0xdd, 0xee, 0xff]⟩⟩]).2 (by decide)).2⟩

/-- C15, evaluated on the code: a /32 route followed by a route of prefix length
0 leaves the line of the prefix-0 route at the head and the line of the /32
route last.  This does not depend on the netmask computed for prefix length 0:
a /32 line has netmask 0, which no netmask is smaller than, so the scan never
passes it and the new line is linked in front of it. -/
theorem install_route_zero_prefix_first :
    (install_routes (fun _ => true)
        [⟨0x0A000A02, 32, 0, ⟨[0x52, 0x54, 0x00, 0xcb, 0xee, 0xf4]⟩⟩,
         ⟨0, 0, 1, ⟨[0xaa, 0xbb, 0xcc, 0xdd, 0xee, 0xff]⟩⟩]
        State.init).routing_table.map (fun l => l.rte)
      = [⟨1, ⟨[0xaa, 0xbb, 0xcc, 0xdd, 0xee, 0xff]⟩⟩,
         ⟨0, ⟨[0x52, 0x54, 0x00, 0xcb, 0xee, 0xf4]⟩⟩] ∧
    ((install_routes (fun _ => true)
        [⟨0x0A000A02, 32, 0, ⟨[0x52, 0x54, 0x00, 0xcb, 0xee, 0xf4]⟩⟩,
         ⟨0, 0, 1, ⟨[0xaa, 0xbb, 0xcc, 0xdd, 0xee, 0xff]⟩⟩]
        State.init).routing_table.getLast?).map (fun l => l.rte)
      = some ⟨0, ⟨[0x52, 0x54, 0x00, 0xcb, 0xee, 0xf4]⟩⟩ ∧
    (install_route (fun _ => true) 0x0A000A02 32 0 ⟨[0x52, 0x54, 0x00, 0xcb, 0xee, 0xf4]⟩
        State.init).2.routing_table.map (fun l => l.netmask) = [0] ∧
    ∀ (netmask : Nat) (line : routing_table_line) (nxt : List routing_table_line),
      line.netmask = 0 → install_route_scan netmask (line :: nxt) = line :: nxt := by
  refine ⟨by decide, by decide, by decide, ?_⟩
  intro netmask line nxt h
  simp [install_route_scan, h]

/-! ## What `parse_args` can and cannot do -/

theorem add_intf_config_routing_table (malloc : Nat → Bool) (intf ip_addr : Nat) (s : State) :
    (add_intf_config malloc intf ip_addr s).2.routing_table = s.routing_table := by
  unfold add_intf_config
  split_ifs <;> rfl

theorem parse_intf_dev_routing_table (malloc : Nat → Bool) (be : Bool) (defn : List Char)
    (s : State) : (parse_intf_dev malloc be defn s).2.routing_table = s.routing_table := by
  rcases parse_intf_dev_cases malloc be defn s with h | ⟨intf, ip, h⟩
  · rw [h]
  · rw [h, add_intf_config_routing_table]

theorem parse_args_loop_stop (malloc : Nat → Bool) (be : Bool) (tok : List Char)
    (rest : List (List Char)) (s : State) (h : c_at tok 0 ≠ '-') :
    parse_args_loop malloc be (tok :: rest) s = (some 0, s) := by
  cases rest with
  | nil => simp [parse_args_loop, h]
  | cons arg rest => simp [parse_args_loop, h]

theorem parse_args_loop_routing_table (malloc : Nat → Bool) (be : Bool) :
    ∀ (n : Nat) (toks : List (List Char)) (s : State), toks.length ≤ n →
      (parse_args_loop malloc be toks s).2.routing_table = s.routing_table := by
  intro n
  induction n with
  | zero =>
    intro toks s h
    cases toks with
    | nil => rfl
    | cons t ts => simp at h
  | succ n ih =>
    intro toks s h
    cases toks with
    | nil => rfl
    | cons tok rest =>
      cases rest with
      | nil =>
        unfold parse_args_loop
        split_ifs <;> rfl
      | cons arg rest =>
        have hlen : rest.length ≤ n := by
          simp only [List.length_cons] at h
          omega
        by_cases h0 : c_at tok 0 = '-'
        · by_cases hr : c_at tok 1 = 'r'
          · rw [parse_args_loop_r malloc be tok arg rest s h0 hr]
          · by_cases hp : c_at tok 1 = 'p'
            · rw [parse_args_loop_p malloc be tok arg rest s h0 hp]
              split_ifs
              · exact parse_intf_dev_routing_table malloc be arg s
              · rw [ih rest _ hlen, parse_intf_dev_routing_table]
            · by_cases hh : c_at tok 1 = 'h'
              · simp [parse_args_loop, h0, hr, hp, hh]
              · rw [parse_args_loop_unknown malloc be tok (arg :: rest) s h0 hr hp hh]
        · rw [parse_args_loop_stop malloc be tok (arg :: rest) s h0]

/-- C16: `parse_install_route` returns `ERR_FORMAT` on every string and leaves
the state, the routing table included, as it was: whenever the first two
separator searches succeed, the third one, which starts at the CIDR field
again, finds no `,`, so `install_route` is never reached.  Hence no run of
`parse_args` changes the routing table, and a run that starts with the empty
table ends with the empty table. -/
theorem parse_install_route_never_installs (malloc : Nat → Bool) (be : Bool)
    (route : List Char) (argv : List (List Char)) (s : State) :
    parse_install_route malloc be route s = (ERR_FORMAT, s) ∧
    (∀ slash comma1, strstr route 0 '/' = some slash →
      strstr (route.set slash NUL) (slash + 1) ',' = some comma1 →
      strstr ((route.set slash NUL).set comma1 NUL) (slash + 1) ',' = none) ∧
    (parse_args malloc be argv s).2.routing_table = s.routing_table ∧
    (parse_args malloc be argv State.init).2.routing_table = [] := by
  refine ⟨parse_install_route_eq malloc be route s, ?_, ?_, ?_⟩
  · intro slash comma1 _ h2
    exact strstr_set_nul _ _ _ _ h2
  · exact parse_args_loop_routing_table malloc be _ _ s (le_refl _)
  · exact parse_args_loop_routing_table malloc be _ _ State.init (le_refl _)

/-- C19, as stated, fails on the code: in `-p 0,10.0.10.1 -z` the first token
whose first character is not `-` is the argument of `-p` at index 2; it is
consumed as that argument, the scan goes on to `-z` and `parse_args` returns
`ERR_GEN`, not 0. -/
theorem parse_args_argument_not_a_stop :
    c_at "-p".toList 0 = '-' ∧ c_at "0,10.0.10.1".toList 0 ≠ '-' ∧
    parse_args (fun _ => true) true
      ["router".toList, "-p".toList, "0,10.0.10.1".toList, "-z".toList] State.init
      = (some ERR_GEN, ⟨[⟨0, 0x0A000A01⟩], [], 1⟩) := by
  decide

theorem parse_args_loop_accepted (malloc : Nat → Bool) (be : Bool)
    (ps : List (List Char × List Char)) (tail : List (List Char)) (s : State)
    (hp : accepted_flags malloc be ps s) :
    parse_args_loop malloc be (flag_tokens ps ++ tail) s =
      parse_args_loop malloc be tail (state_after malloc be ps s) := by
  induction ps generalizing s with
  | nil => rfl
  | cons p ps ih =>
    obtain ⟨flag, arg⟩ := p
    obtain ⟨h0, h1, hok, hrest⟩ := hp
    have h := parse_args_loop_p malloc be flag arg (flag_tokens ps ++ tail) s h0 h1
    rw [if_neg hok] at h
    simp only [flag_tokens, List.cons_append, state_after]
    rw [h, ih _ hrest]

/-- C19, amended: `parse_args` stops at the first token at which it looks for a
flag (index 1, or the token behind the accepted argument of a `-p` flag) and
whose first character is not `-`, and returns 0; the state is the one the
accepted arguments before it produced, so no later token is processed,
whatever it is. -/
theorem parse_args_stops_at_non_flag (malloc : Nat → Bool) (be : Bool) (prog tok : List Char)
    (ps : List (List Char × List Char)) (rest : List (List Char)) (s : State)
    (hp : accepted_flags malloc be ps s) (h : c_at tok 0 ≠ '-') :
    parse_args malloc be (prog :: (flag_tokens ps ++ tok :: rest)) s =
      (some 0, state_after malloc be ps s) ∧
    (state_after malloc be ps s).routing_table = s.routing_table := by
  constructor
  · unfold parse_args
    rw [List.drop_one, List.tail_cons, parse_args_loop_accepted malloc be ps _ s hp,
      parse_args_loop_stop malloc be tok rest _ h]
  · clear hp
    induction ps generalizing s with
    | nil => rfl
    | cons p ps ih =>
      obtain ⟨flag, arg⟩ := p
      simp only [state_after]
      rw [ih, parse_intf_dev_routing_table]

theorem parse_args_stops_at_non_flag_witness :
    (accepted_flags (fun _ => true) true ([] : List (List Char × List Char)) State.init ∧
      c_at "x".toList 0 ≠ '-' ∧
      parse_args (fun _ => true) true ["prog".toList, "x".toList, "-z".toList] State.init
        = (some 0, State.init)) ∧
    (accepted_flags (fun _ => true) true [("-p".toList, "0,10.0.10.1".toList)] State.init ∧
      parse_args (fun _ => true) true
        ["prog".toList, "-p".toList, "0,10.0.10.1".toList, "x".toList, "-z".toList,
         "-r".toList] State.init
        = (some 0, ⟨[⟨0, 0x0A000A01⟩], [], 1⟩)) :=
  ⟨⟨trivial, by decide,
     (parse_args_stops_at_non_flag (fun _ => true) true "prog".toList "x".toList []
       ["-z".toList] State.init trivial (by decide)).1⟩,
   ⟨⟨by decide, by decide, by decide, trivial⟩,
     (parse_args_stops_at_non_flag (fun _ => true) true "prog".toList "x".toList
       [("-p".toList, "0,10.0.10.1".toList)] ["-z".toList, "-r".toList] State.init
       ⟨by decide, by decide, by decide, trivial⟩ (by decide)).1⟩⟩

/-- C20, evaluated on the code: when `-r` or `-p` is the last token `argv[argc - 1]`,
`parse_args` hands `argv[++ctr] = argv[argc]`, the terminating `NULL` pointer, to
the parser, whose first statement passes it to `strstr`; the run has no defined
result (`none`), it does not return an ingestion failure. -/
theorem parse_args_reads_past_last_token (malloc : Nat → Bool) (be : Bool) (s : State) :
    parse_args malloc be ["router".toList, "-r".toList] s = (none, s) ∧
    parse_args malloc be ["router".toList, "-p".toList] s = (none, s) ∧
    parse_args (fun _ => true) true
      ["router".toList, "-p".toList, "0,10.0.10.1".toList, "-p".toList] State.init
      = (none, ⟨[⟨0, 0x0A000A01⟩], [], 1⟩) := by
  refine ⟨?_, ?_, by decide⟩
  · simp [parse_args, parse_args_loop, c_at]
  · simp [parse_args, parse_args_loop, c_at]

/-! ## `sscanf` on hexadecimal groups -/

theorem hex_val_ne (c : Char) (h : (hex_val c).isSome = true) :
    isspace c = false ∧ c ≠ '-' ∧ c ≠ '+' ∧ c ≠ 'x' ∧ c ≠ 'X' ∧ c ≠ ':' := by
  have key : ∀ x : Char, hex_val x = none → c ≠ x := by
    rintro x hx rfl
    rw [hx] at h
    exact Bool.noConfusion h
  have h1 := key ' ' (by decide)
  have h2 := key '\t' (by decide)
  have h3 := key '\n' (by decide)
  have h4 := key (Char.ofNat 11) (by decide)
  have h5 := key (Char.ofNat 12) (by decide)
  have h6 := key '\r' (by decide)
  refine ⟨?_, key _ (by decide), key _ (by decide), key _ (by decide), key _ (by decide),
    key _ (by decide)⟩
  simp [isspace, h1, h2, h3, h4, h5, h6]

theorem scan_hex_append (g rest : List Char) (acc : Nat)
    (hg : ∀ c ∈ g, (hex_val c).isSome = true)
    (hr : ∀ c tl, rest = c :: tl → hex_val c = none) :
    scan_hex (g ++ rest) acc =
      (g.foldl (fun acc c => acc * 16 + (hex_val c).getD 0) acc, g.length) := by
  induction g generalizing acc with
  | nil =>
    cases rest with
    | nil => simp [scan_hex]
    | cons c tl => simp [scan_hex, hr c tl rfl]
  | cons y ys ih =>
    obtain ⟨d, hd⟩ := Option.isSome_iff_exists.mp (hg y (List.mem_cons_self _ _))
    have := ih (acc * 16 + d) (fun c hc => hg c (List.mem_cons_of_mem _ hc))
    simp [scan_hex, hd, this]

theorem scanf_x_plain (g rest : List Char) (hg : plain_group g)
    (hr : ∀ c tl, rest = c :: tl → c = ':') :
    scanf_x (g ++ rest) = some (hex_stored (hex_value g), g.length) := by
  obtain ⟨hne, hall⟩ := hg
  obtain ⟨y, ys, rfl⟩ := List.exists_cons_of_ne_nil hne
  have hy := hex_val_ne y (hall y (List.mem_cons_self _ _))
  have hcolon : hex_val ':' = none := by decide
  have hsc := scan_hex_append (y :: ys) rest 0 hall
    (fun c tl e => by rw [hr c tl e]; exact hcolon)
  have hsc2 : scan_hex (y :: (ys ++ rest)) 0 = (hex_value (y :: ys), (y :: ys).length) := hsc
  have hws : List.takeWhile isspace (y :: (ys ++ rest)) = [] := by
    simp [List.takeWhile_cons, hy.1]
  have hpre : (match y :: (ys ++ rest) with
      | c0 :: c1 :: _ => if c0 = '0' ∧ (c1 = 'x' ∨ c1 = 'X') then 2 else 0
      | _ => 0) = 0 := by
    cases ys with
    | nil =>
      cases rest with
      | nil => rfl
      | cons c tl =>
        have hc := hr c tl rfl
        subst hc
        simp
    | cons z zs =>
      have hz := hex_val_ne z (hall z (by simp))
      simp [hz.2.2.2.1, hz.2.2.2.2.1]
  unfold scanf_x
  simp only [hws, List.length_nil, List.cons_append, List.drop_zero, hy.2.1, hy.2.2.1,
    if_false, hpre, hsc2]
  simp [hex_stored]

theorem join_colon_cons_cons (g g2 : List Char) (gs : List (List Char)) :
    join_colon (g :: g2 :: gs) = g ++ ':' :: join_colon (g2 :: gs) := rfl

theorem sscanf_hex_groups_plain (n : Nat) (gs : List (List Char)) (hlen : gs.length ≤ n)
    (hg : ∀ g ∈ gs, plain_group g) :
    sscanf_hex_groups n (join_colon gs) = gs.map (fun g => hex_stored (hex_value g)) := by
  induction n generalizing gs with
  | zero =>
    cases gs with
    | nil => rfl
    | cons g gs => simp at hlen
  | succ k ih =>
    cases gs with
    | nil => simp [join_colon, sscanf_hex_groups, scanf_x, scan_hex]
    | cons g gs =>
      cases gs with
      | nil =>
        have h := scanf_x_plain g [] (hg g (by simp)) (by simp)
        rw [List.append_nil] at h
        by_cases hk : k = 0
        · simp [join_colon, sscanf_hex_groups, h, hk]
        · simp [join_colon, sscanf_hex_groups, h, hk]
      | cons g2 gs =>
        have h := scanf_x_plain g (':' :: join_colon (g2 :: gs)) (hg g (by simp))
          (by intro c tl e; simp at e; exact e.1.symm)
        have hk : k ≠ 0 := by
          simp only [List.length_cons] at hlen
          omega
        have hrec := ih (g2 :: gs) (by simp only [List.length_cons] at hlen ⊢; omega)
          (fun x hx => hg x (List.mem_cons_of_mem _ hx))
        rw [join_colon_cons_cons]
        unfold sscanf_hex_groups
        simp only [h, hk, if_false, List.drop_left, if_true, hrec, List.map_cons]

theorem parse_mac_plain (gs : List (List Char)) (mac : ether_addr) (hlen : gs.length ≤ 6)
    (hg : ∀ g ∈ gs, plain_group g) :
    parse_mac (join_colon gs) mac =
      if gs.length = 6 then (0, ⟨gs.map (fun g => hex_stored (hex_value g) % 256)⟩)
      else (-1, mac) := by
  have h := sscanf_hex_groups_plain MAC_LEN gs hlen hg
  unfold parse_mac sscanf_mac
  rw [h]
  by_cases h6 : gs.length = 6
  · have hne : gs ≠ [] := by
      intro e
      rw [e] at h6
      simp at h6
    simp [h6, hne, MAC_LEN, List.map_map, Function.comp_def]
  · have hlt : gs.length < 6 := by omega
    simp only [h6, if_false]
    split_ifs with h1 h2 h3
    · simp [MAC_LEN] at h2
    · rfl
    · simp only [List.length_map, MAC_LEN] at h3
      omega
    · rfl

theorem hexdig_val : ∀ k, k < 16 → hex_val (hexdig k) = some k := by
  decide

theorem hex2_plain (o : Nat) (ho : o < 256) :
    plain_group (hex2 o) ∧ hex_stored (hex_value (hex2 o)) % 256 = o := by
  have h1 := hexdig_val (o / 16) (by omega)
  have h2 := hexdig_val (o % 16) (by omega)
  refine ⟨⟨by simp [hex2], ?_⟩, ?_⟩
  · intro c hc
    simp only [hex2, List.mem_cons, List.mem_singleton, List.not_mem_nil, or_false] at hc
    rcases hc with rfl | rfl
    · rw [h1]; rfl
    · rw [h2]; rfl
  · simp only [hex_value, hex2, List.foldl_cons, List.foldl_nil, h1, h2, Option.getD_some,
      hex_stored]
    have e : (0 * 16 + o / 16) * 16 + o % 16 = o := by omega
    rw [e]
    have hlt : ¬ (o ≥ 2 ^ 64) := by omega
    simp only [hlt, if_false]
    omega

/-- C12: the colon-separated two-digit lowercase hexadecimal text of six octets
is parsed by `parse_mac` to 0 and exactly these six octets, in order. -/
theorem parse_mac_round_trip (os : List Nat) (mac : ether_addr) (hlen : os.length = 6)
    (ho : ∀ o ∈ os, o < 256) :
    parse_mac (mac_text os) mac = (0, ⟨os⟩) := by
  have hg : ∀ g ∈ os.map hex2, plain_group g := by
    intro g hgm
    obtain ⟨o, hom, rfl⟩ := List.mem_map.mp hgm
    exact (hex2_plain o (ho o hom)).1
  have h := parse_mac_plain (os.map hex2) mac (by simp [hlen]) hg
  unfold mac_text
  rw [h]
  simp only [List.length_map, hlen, if_true, List.map_map]
  congr 2
  conv_rhs => rw [← List.map_id os]
  apply List.map_congr_left
  intro o hom
  exact (hex2_plain o (ho o hom)).2

theorem parse_mac_round_trip_witness :
    [0x52, 0x54, 0x00, 0xcb, 0xee, 0xf4].length = 6 ∧
    (∀ o ∈ [0x52, 0x54, 0x00, 0xcb, 0xee, 0xf4], o < 256) ∧
    mac_text [0x52, 0x54, 0x00, 0xcb, 0xee, 0xf4] = "52:54:00:cb:ee:f4".toList ∧
    parse_mac "52:54:00:cb:ee:f4".toList ⟨[0, 0, 0, 0, 0, 0]⟩
      = (0, ⟨[0x52, 0x54, 0x00, 0xcb, 0xee, 0xf4]⟩) :=
  ⟨rfl, by decide, by decide,
    parse_mac_round_trip [0x52, 0x54, 0x00, 0xcb, 0xee, 0xf4] ⟨[0, 0, 0, 0, 0, 0]⟩ rfl
      (by decide)⟩

/-- C14: a string made of fewer than six groups of hexadecimal digits separated
by `:` and nothing else makes `parse_mac` return -1, a negative result, and the
output address keeps the content it had. -/
theorem parse_mac_too_few_groups (gs : List (List Char)) (mac : ether_addr)
    (hlen : gs.length < 6) (hg : ∀ g ∈ gs, plain_group g) :
    parse_mac (join_colon gs) mac = (-1, mac) ∧ (parse_mac (join_colon gs) mac).1 < 0 := by
  have h := parse_mac_plain gs mac (by omega) hg
  have h6 : ¬ (gs.length = 6) := by omega
  rw [h]
  simp [h6]

theorem parse_mac_too_few_groups_witness :
    ["52".toList, "54".toList, "00".toList, "cb".toList, "ee".toList].length < 6 ∧
    (∀ g ∈ ["52".toList, "54".toList, "00".toList, "cb".toList, "ee".toList],
      plain_group g) ∧
    join_colon ["52".toList, "54".toList, "00".toList, "cb".toList, "ee".toList]
      = "52:54:00:cb:ee".toList ∧
    parse_mac "52:54:00:cb:ee".toList ⟨[1, 2, 3, 4, 5, 6]⟩ = (-1, ⟨[1, 2, 3, 4, 5, 6]⟩) ∧
    (parse_mac "52:54:00:cb:ee".toList ⟨[1, 2, 3, 4, 5, 6]⟩).1 < 0 :=
  ⟨by decide, by unfold plain_group; decide, by decide,
    parse_mac_too_few_groups
      ["52".toList, "54".toList, "00".toList, "cb".toList, "ee".toList] ⟨[1, 2, 3, 4, 5, 6]⟩
      (by decide) (by unfold plain_group; decide)⟩

/-! ## What one `%x` directive consumes -/

theorem drop_length_takeWhile (p : Char → Bool) (l : List Char) :
    l.drop (l.takeWhile p).length = l.dropWhile p := by
  induction l with
  | nil => rfl
  | cons x xs ih =>
    by_cases h : p x = true
    · simp [List.takeWhile_cons, List.dropWhile_cons, h, ih]
    · simp [List.takeWhile_cons, List.dropWhile_cons, h]

theorem takeWhile_all (p : Char → Bool) (l : List Char) :
    ∀ c ∈ l.takeWhile p, p c = true := by
  intro c hc
  exact List.mem_takeWhile_imp hc

theorem scan_hex_take (s : List Char) (acc : Nat) :
    ∃ ds tl, s = ds ++ tl ∧ ds.length = (scan_hex s acc).2 ∧
      ∀ c ∈ ds, (hex_val c).isSome = true := by
  induction s generalizing acc with
  | nil => exact ⟨[], [], rfl, rfl, by simp⟩
  | cons y ys ih =>
    cases hy : hex_val y with
    | none => exact ⟨[], y :: ys, rfl, by simp [scan_hex, hy], by simp⟩
    | some d =>
      obtain ⟨ds, tl, e, hl, hall⟩ := ih (acc * 16 + d)
      refine ⟨y :: ds, tl, by rw [e]; rfl, by simp [scan_hex, hy, hl], ?_⟩
      intro c hc
      rcases List.mem_cons.mp hc with rfl | hc
      · rw [hy]; rfl
      · exact hall c hc

theorem sign_split (s1 : List Char) :
    ∃ sg s2, s1 = sg ++ s2 ∧ (sg = [] ∨ sg = ['-'] ∨ sg = ['+']) ∧
      (match s1 with
        | c :: _ => if c = '-' then (true, 1) else if c = '+' then (false, 1) else (false, 0)
        | [] => ((false, 0) : Bool × Nat)).2 = sg.length := by
  cases s1 with
  | nil => exact ⟨[], [], rfl, Or.inl rfl, rfl⟩
  | cons c tl =>
    by_cases h1 : c = '-'
    · exact ⟨['-'], tl, by rw [h1]; rfl, Or.inr (Or.inl rfl), by simp [h1]⟩
    · by_cases h2 : c = '+'
      · exact ⟨['+'], tl, by rw [h2]; rfl, Or.inr (Or.inr rfl), by simp [h2]⟩
      · exact ⟨[], c :: tl, rfl, Or.inl rfl, by simp [h1, h2]⟩

theorem pre_split (s2 : List Char) :
    ∃ pre s3, s2 = pre ++ s3 ∧ (pre = [] ∨ pre = ['0', 'x'] ∨ pre = ['0', 'X']) ∧
      (match s2 with
        | c0 :: c1 :: _ => if c0 = '0' ∧ (c1 = 'x' ∨ c1 = 'X') then 2 else 0
        | _ => (0 : Nat)) = pre.length := by
  cases s2 with
  | nil => exact ⟨[], [], rfl, Or.inl rfl, rfl⟩
  | cons c0 tl =>
    cases tl with
    | nil => exact ⟨[], [c0], rfl, Or.inl rfl, rfl⟩
    | cons c1 tl =>
      by_cases h0 : c0 = '0'
      · by_cases hx : c1 = 'x'
        · exact ⟨['0', 'x'], tl, by rw [h0, hx]; rfl, Or.inr (Or.inl rfl), by simp [h0, hx]⟩
        · by_cases hX : c1 = 'X'
          · exact ⟨['0', 'X'], tl, by rw [h0, hX]; rfl, Or.inr (Or.inr rfl), by simp [h0, hX]⟩
          · exact ⟨[], c0 :: c1 :: tl, rfl, Or.inl rfl, by simp [hx, hX]⟩
      · exact ⟨[], c0 :: c1 :: tl, rfl, Or.inl rfl, by simp [h0]⟩

theorem scanf_x_group (s : List Char) (v n : Nat) (h : scanf_x s = some (v, n)) :
    ∃ g tl, s = g ++ tl ∧ g.length = n ∧ hex_group g := by
  have hs : s.takeWhile isspace ++ s.dropWhile isspace = s := List.takeWhile_append_dropWhile _ _
  obtain ⟨sg, s2, e1, hsg, hsl⟩ := sign_split (s.dropWhile isspace)
  obtain ⟨pre, s3, e2, hpre, hpl⟩ := pre_split s2
  obtain ⟨ds, tl, e3, hdl, hds⟩ := scan_hex_take s3 0
  unfold scanf_x at h
  simp only [drop_length_takeWhile] at h
  rw [hsl] at h
  have hd2 : List.drop sg.length (s.dropWhile isspace) = s2 := by
    rw [e1, List.drop_left]
  rw [hd2, hpl] at h
  have hd3 : List.drop pre.length s2 = s3 := by
    rw [e2, List.drop_left]
  rw [hd3, ← hdl] at h
  by_cases hz : pre.length = 0 ∧ ds.length = 0
  · rw [if_pos hz] at h
    exact Option.noConfusion h
  · rw [if_neg hz] at h
    have hn := congrArg Prod.snd (Option.some.inj h)
    simp only at hn
    refine ⟨s.takeWhile isspace ++ sg ++ pre ++ ds, tl, ?_, ?_, ?_⟩
    · conv_lhs => rw [← hs, e1, e2, e3]
      simp only [List.append_assoc]
    · simp only [List.length_append]
      exact hn
    · refine ⟨_, sg, pre, ds, rfl, takeWhile_all _ _, hsg, hpre, hds, ?_⟩
      by_contra hc
      push_neg at hc
      apply hz
      simp [hc.1, hc.2]

theorem sscanf_hex_groups_shape (k : Nat) (s : List Char)
    (h : (sscanf_hex_groups k s).length = k) :
    ∃ gs tail, gs.length = k ∧ (∀ g ∈ gs, hex_group g) ∧ s = join_colon gs ++ tail := by
  induction k generalizing s with
  | zero => exact ⟨[], s, rfl, by simp, rfl⟩
  | succ k ih =>
    unfold sscanf_hex_groups at h
    cases hsc : scanf_x s with
    | none => simp [hsc] at h
    | some r =>
      obtain ⟨v, n⟩ := r
      obtain ⟨g, tl, e, hgl, hgg⟩ := scanf_x_group s v n hsc
      simp only [hsc] at h
      by_cases hk : k = 0
      · refine ⟨[g], tl, by simp [hk], ?_, by simpa [join_colon] using e⟩
        intro x hx
        rw [List.mem_singleton.mp hx]
        exact hgg
      · have hdrop : List.drop n s = tl := by
          rw [e, ← hgl, List.drop_left]
        simp only [hk, if_false, hdrop] at h
        cases tl with
        | nil =>
          simp only [List.length_singleton] at h
          omega
        | cons c rest =>
          by_cases hc : c = ':'
          · simp only [hc, if_true, List.length_cons, Nat.add_right_cancel_iff] at h
            obtain ⟨gs, tail, hl, hall, e2⟩ := ih rest h
            cases gs with
            | nil => exact absurd hl.symm hk
            | cons g2 gs =>
              refine ⟨g :: g2 :: gs, tail, by simp [← hl], ?_, ?_⟩
              · intro x hx
                rcases List.mem_cons.mp hx with rfl | hx
                · exact hgg
                · exact hall x hx
              · rw [join_colon_cons_cons, e, hc, e2]
                simp
          · simp only [hc, if_false, List.length_singleton] at h
            omega

theorem parse_mac_result (s : List Char) (mac : ether_addr) :
    ((parse_mac s mac).1 = 0 ∧ (sscanf_hex_groups MAC_LEN s).length = MAC_LEN) ∨
      parse_mac s mac = (-1, mac) := by
  unfold parse_mac sscanf_mac
  by_cases h1 : sscanf_hex_groups MAC_LEN s = [] ∧ c_at (List.dropWhile isspace s) 0 = NUL
  · right
    simp only [h1, and_self, if_true]
    rfl
  · simp only [h1, if_false]
    by_cases h2 : (MAC_LEN : Int) = ((sscanf_hex_groups MAC_LEN s).length : Int)
    · left
      simp only [h2, if_true, true_and]
      exact_mod_cast h2.symm
    · right
      simp only [h2, if_false]

/-- C13, as stated, fails on the code: text behind the sixth group, a group of
three hexadecimal digits, and white space in front are all accepted; the group
`152` is narrowed to the octet `0x52`. -/
theorem parse_mac_accepts_loose_text :
    parse_mac "52:54:00:cb:ee:f4zz".toList ⟨[0, 0, 0, 0, 0, 0]⟩
      = (0, ⟨[0x52, 0x54, 0x00, 0xcb, 0xee, 0xf4]⟩) ∧
    parse_mac "152:54:00:cb:ee:f4".toList ⟨[0, 0, 0, 0, 0, 0]⟩
      = (0, ⟨[0x52, 0x54, 0x00, 0xcb, 0xee, 0xf4]⟩) ∧
    parse_mac " 52:54:00:cb:ee:f4".toList ⟨[0, 0, 0, 0, 0, 0]⟩
      = (0, ⟨[0x52, 0x54, 0x00, 0xcb, 0xee, 0xf4]⟩) := by
  decide

/-- C13, amended: `parse_mac` returns 0 or -1, and it returns 0 only for a
string that begins with six groups separated by `:`, each group being what one
`%x` directive consumes (optional white space, sign and `0x`, then hexadecimal
digits, of any number); what follows the sixth group is not examined.  Every
other string is rejected with -1 and the output address is not written. -/
theorem parse_mac_accepts_only_six_groups (s : List Char) (mac : ether_addr) :
    ((parse_mac s mac).1 = 0 ∨ parse_mac s mac = (-1, mac)) ∧
    ((parse_mac s mac).1 = 0 →
      ∃ gs tail, gs.length = 6 ∧ (∀ g ∈ gs, hex_group g) ∧ s = join_colon gs ++ tail) := by
  rcases parse_mac_result s mac with ⟨h0, hlen⟩ | hneg
  · exact ⟨Or.inl h0, fun _ => sscanf_hex_groups_shape MAC_LEN s hlen⟩
  · refine ⟨Or.inr hneg, fun h0 => ?_⟩
    rw [hneg] at h0
    exact absurd h0 (by simp)

theorem parse_mac_accepts_only_six_groups_witness :
    (parse_mac "52:54:00:cb:ee:f4zz".toList ⟨[0, 0, 0, 0, 0, 0]⟩).1 = 0 ∧
    ∃ gs tail, gs.length = 6 ∧ (∀ g ∈ gs, hex_group g) ∧
      "52:54:00:cb:ee:f4zz".toList = join_colon gs ++ tail :=
  ⟨by decide,
    (parse_mac_accepts_only_six_groups "52:54:00:cb:ee:f4zz".toList ⟨[0, 0, 0, 0, 0, 0]⟩).2
      (by decide)⟩

/-! ## The identifier field of an interface definition -/

theorem find_char_some (c : Char) (l : List Char) (k : Nat) (h : find_char c l = some k) :
    ∃ pre rest, l = pre ++ c :: rest ∧ pre.length = k ∧ ∀ x ∈ pre, x ≠ NUL := by
  induction l generalizing k with
  | nil => simp [find_char] at h
  | cons x xs ih =>
    unfold find_char at h
    by_cases hx : x = NUL
    · simp [hx] at h
    · by_cases hc : x = c
      · subst hc
        simp only [hx, if_false, if_true, Option.some.injEq] at h
        exact ⟨[], xs, rfl, by simpa using h, by simp⟩
      · simp only [hx, hc, if_false] at h
        cases hf : find_char c xs with
        | none => simp [hf] at h
        | some k0 =>
          simp only [hf, Option.map_some', Option.some.injEq] at h
          obtain ⟨pre, rest, e, hl, hn⟩ := ih k0 hf
          refine ⟨x :: pre, rest, by rw [e]; rfl, by simp [hl, h], ?_⟩
          intro y hy
          rcases List.mem_cons.mp hy with rfl | hy
          · exact hx
          · exact hn y hy

theorem sign_flag (s1 : List Char) :
    ∃ sg s2, s1 = sg ++ s2 ∧ (sg = [] ∨ sg = ['-'] ∨ sg = ['+']) ∧
      (match s1 with
        | c :: _ => if c = '-' then (true, 1) else if c = '+' then (false, 1) else (false, 0)
        | [] => ((false, 0) : Bool × Nat)) = (decide (sg = ['-']), sg.length) := by
  cases s1 with
  | nil => exact ⟨[], [], rfl, Or.inl rfl, rfl⟩
  | cons c tl =>
    by_cases h1 : c = '-'
    · exact ⟨['-'], tl, by rw [h1]; rfl, Or.inr (Or.inl rfl), by simp [h1]⟩
    · by_cases h2 : c = '+'
      · exact ⟨['+'], tl, by rw [h2]; rfl, Or.inr (Or.inr rfl), by simp [h2]⟩
      · exact ⟨[], c :: tl, rfl, Or.inl rfl, by simp [h1, h2]⟩

theorem scan_digits_take (s : List Char) (acc : Nat) :
    ∃ ds tl, s = ds ++ tl ∧ (∀ c ∈ ds, c.isDigit = true) ∧
      scan_digits s acc = (ds.foldl (fun acc c => acc * 10 + digit_val c) acc, ds.length) := by
  induction s generalizing acc with
  | nil => exact ⟨[], [], rfl, by simp, rfl⟩
  | cons y ys ih =>
    by_cases hy : y.isDigit = true
    · obtain ⟨ds, tl, e, hall, hsc⟩ := ih (acc * 10 + digit_val y)
      refine ⟨y :: ds, tl, by rw [e]; rfl, ?_, by simp [scan_digits, hy, hsc]⟩
      intro c hc
      rcases List.mem_cons.mp hc with rfl | hc
      · exact hy
      · exact hall c hc
    · exact ⟨[], y :: ys, rfl, by simp, by simp [scan_digits, hy]⟩

theorem strtol_shape (s : List Char) :
    ∃ ws sg ds tl, s = ws ++ sg ++ ds ++ tl ∧ (∀ c ∈ ws, isspace c = true) ∧
      (sg = [] ∨ sg = ['-'] ∨ sg = ['+']) ∧ (∀ c ∈ ds, c.isDigit = true) ∧
      ((ds = [] ∧ strtol s = (0, 0)) ∨
       (ds ≠ [] ∧ strtol s =
          (max LONG_MIN (min LONG_MAX
              (if sg = ['-'] then -(dec_value ds : Int) else (dec_value ds : Int))),
            (ws ++ sg ++ ds).length))) := by
  have hs : s.takeWhile isspace ++ s.dropWhile isspace = s := List.takeWhile_append_dropWhile _ _
  obtain ⟨sg, s2, e1, hsg, hsf⟩ := sign_flag (s.dropWhile isspace)
  obtain ⟨ds, tl, e2, hds, hsc⟩ := scan_digits_take s2 0
  have hd2 : List.drop sg.length (s.dropWhile isspace) = s2 := by
    rw [e1, List.drop_left]
  refine ⟨s.takeWhile isspace, sg, ds, tl, ?_, takeWhile_all _ _, hsg, hds, ?_⟩
  · conv_lhs => rw [← hs, e1, e2]
    simp only [List.append_assoc]
  · unfold strtol
    simp only [drop_length_takeWhile, hsf, hd2, hsc]
    by_cases hnil : ds = []
    · left
      simp [hnil]
    · right
      have hlen : ¬ (ds.length = 0) := by
        intro h0
        exact hnil (List.length_eq_zero.mp h0)
      refine ⟨hnil, ?_⟩
      simp only [hlen, if_false, decide_eq_true_eq, List.length_append, dec_value]

theorem takeWhile_not_nul (a t : List Char) (ha : ∀ x ∈ a, x ≠ NUL) (ht : c_at t 0 = NUL) :
    (a ++ t).takeWhile (fun c => c != NUL) = a := by
  induction a with
  | nil =>
    cases t with
    | nil => rfl
    | cons y ys =>
      have hy : y = NUL := by simpa [c_at] using ht
      simp [List.takeWhile_cons, hy]
  | cons x xs ih =>
    have hx := ha x (List.mem_cons_self _ _)
    have := ih (fun y hy => ha y (List.mem_cons_of_mem _ hy))
    simp [List.takeWhile_cons, hx, this]

theorem isspace_ne_nul (c : Char) (h : isspace c = true) : c ≠ NUL := by
  rintro rfl
  revert h
  decide

theorem parse_intf_dev_accepted (malloc : Nat → Bool) (be : Bool) (defn : List Char)
    (s : State) (h : parse_intf_dev malloc be defn s ≠ (ERR_FORMAT, s)) :
    id_field_accepted defn := by
  unfold parse_intf_dev at h
  cases hf : strstr defn 0 ',' with
  | none => simp [hf] at h
  | some comma =>
    have hfc : find_char ',' defn = some comma := by
      simpa [strstr] using hf
    obtain ⟨pre, rest, e, hl, hn⟩ := find_char_some ',' defn comma hfc
    have hbuf : defn.set comma NUL = pre ++ NUL :: rest := by
      rw [e, ← hl]
      simp
    simp only [hf, hbuf] at h
    by_cases h1 : c_at (pre ++ NUL :: rest) (strtol (pre ++ NUL :: rest)).2 ≠ NUL
    · simp [h1] at h
    · by_cases h2 : to_u8 (strtol (pre ++ NUL :: rest)).1 ≠ (strtol (pre ++ NUL :: rest)).1
      · simp [h1, h2] at h
      · simp only [ne_eq, not_not] at h1 h2
        obtain ⟨ws, sg, ds, tl, eb, hws, hsg, hds, hcase⟩ := strtol_shape (pre ++ NUL :: rest)
        rcases hcase with ⟨hnil, hst⟩ | ⟨hne, hst⟩
        · rw [hst] at h1
          have hpre : pre = [] := by
            cases pre with
            | nil => rfl
            | cons x xs =>
              have hx := hn x (List.mem_cons_self _ _)
              simp [c_at] at h1
              exact absurd h1 hx
          subst hpre
          exact ⟨[], [], [], rest, by simpa using e, by simp, Or.inl rfl, by simp,
            fun _ => ⟨rfl, rfl⟩, by simp [dec_value], fun _ => by simp [dec_value]⟩
        · rw [hst] at h1 h2
          have hb : ∀ x ∈ ws ++ sg ++ ds, x ≠ NUL := by
            intro x hx
            rcases List.mem_append.mp hx with hx | hx
            · rcases List.mem_append.mp hx with hx | hx
              · exact isspace_ne_nul x (hws x hx)
              · rcases hsg with rfl | rfl | rfl
                · simp at hx
                · rw [List.mem_singleton.mp hx]; decide
                · rw [List.mem_singleton.mp hx]; decide
            · exact (isDigit_ne x (hds x hx)).1
          have htl : c_at tl 0 = NUL := by
            have := h1
            simp only [] at this
            rw [eb] at this
            unfold c_at at this ⊢
            rw [List.getD_append_right _ _ _ _ (le_refl _)] at this
            simpa using this
          have t1 := takeWhile_not_nul pre (NUL :: rest) hn (by simp [c_at])
          have t2 := takeWhile_not_nul (ws ++ sg ++ ds) tl hb htl
          rw [eb] at t1
          have hpre : pre = ws ++ sg ++ ds := by rw [← t1, t2]
          have hval : dec_value ds ≤ 255 ∧ (sg = ['-'] → dec_value ds = 0) := by
            simp only [to_u8] at h2
            have hd0 : (0 : Int) ≤ (dec_value ds : Int) := Int.natCast_nonneg _
            by_cases hm : sg = ['-']
            · simp only [hm, if_true, LONG_MIN, LONG_MAX] at h2
              constructor
              · omega
              · intro _
                omega
            · simp only [hm, if_false, LONG_MIN, LONG_MAX] at h2
              constructor
              · omega
              · intro hc
                exact absurd hc hm
          refine ⟨ws, sg, ds, rest, by rw [e, hpre], hws, hsg, hds, fun hc => absurd hc hne,
            hval.1, hval.2⟩

/-- C11, as stated, fails on the code: an empty identifier field, a field with
leading white space and a field with a sign are accepted, and the interface is
registered with identifier 0, 5 and 5. -/
theorem parse_intf_dev_accepts_loose_id :
    parse_intf_dev (fun _ => true) true ",10.0.0.1".toList State.init
      = (0, ⟨[⟨0, 0x0A000001⟩], [], 1⟩) ∧
    parse_intf_dev (fun _ => true) true " 5,10.0.0.1".toList State.init
      = (0, ⟨[⟨5, 0x0A000001⟩], [], 1⟩) ∧
    parse_intf_dev (fun _ => true) true "+5,10.0.0.1".toList State.init
      = (0, ⟨[⟨5, 0x0A000001⟩], [], 1⟩) := by
  decide

/-- C11, amended: `parse_intf_dev` returns 0 only if the text before the first
`,` is empty or is optional white space, an optional sign and a non-empty
string of decimal digits that `strtol` consumes entirely and converts to a
value in `[0, 255]`; every definition that is not of this form (no `,`, a
non-numeric suffix, a value above 255, a negative value) makes it return
`ERR_FORMAT` and leaves the interface registry, and the whole state,
unchanged. -/
theorem parse_intf_dev_id_field (malloc : Nat → Bool) (be : Bool) (defn : List Char)
    (s : State) :
    ((parse_intf_dev malloc be defn s).1 = 0 → id_field_accepted defn) ∧
    (¬ id_field_accepted defn →
      parse_intf_dev malloc be defn s = (ERR_FORMAT, s) ∧
      (parse_intf_dev malloc be defn s).2.intf_defs = s.intf_defs) := by
  constructor
  · intro h0
    apply parse_intf_dev_accepted malloc be defn s
    intro he
    rw [he] at h0
    simp [ERR_FORMAT] at h0
  · intro hna
    have he : parse_intf_dev malloc be defn s = (ERR_FORMAT, s) := by
      by_contra hc
      exact hna (parse_intf_dev_accepted malloc be defn s hc)
    exact ⟨he, by rw [he]⟩

theorem parse_intf_dev_id_field_witness :
    (parse_intf_dev (fun _ => true) true " 5,10.0.0.1".toList State.init).1 = 0 ∧
    id_field_accepted " 5,10.0.0.1".toList ∧
    parse_intf_dev (fun _ => true) true "0x,10.0.0.1".toList State.init
      = (ERR_FORMAT, State.init) ∧
    parse_intf_dev (fun _ => true) true "256,10.0.0.1".toList State.init
      = (ERR_FORMAT, State.init) ∧
    parse_intf_dev (fun _ => true) true "010.0.0.1".toList State.init
      = (ERR_FORMAT, State.init) :=
  ⟨by decide,
    (parse_intf_dev_id_field (fun _ => true) true " 5,10.0.0.1".toList State.init).1
      (by decide),
    by decide, by decide, by decide⟩

end Router
